import Mathlib

set_option maxRecDepth 8000

/-!
Verification development for the ProctGuard repository.

Part A embeds the utility functions of `src/static/js/app.js`
(`formatDuration`, `convertToCSV`, `Storage`) as Lean functions.
Part B models JSON serialization (the browser's `JSON.stringify` /
`JSON.parse` pair used by `Storage`) concretely, with a printer and a
parser and a proved round trip.
Part C models the real-time violation-detection and session-scoring
engine from the specification (the repository ships no engine source
file), faithful to the spec's component contracts.
-/

namespace ProctGuard

/-! ### Part A: `app.js` utilities -/

/-- `Math.floor(seconds / 3600)` of `formatDuration` in `app.js`. -/
def durHours (s : Nat) : Nat := s / 3600

/-- `Math.floor((seconds % 3600) / 60)` of `formatDuration` in `app.js`. -/
def durMinutes (s : Nat) : Nat := s % 3600 / 60

/-- `seconds % 60` of `formatDuration` in `app.js`. -/
def durSeconds (s : Nat) : Nat := s % 60

/-- `formatDuration` from `app.js`, restricted to non-negative integer
inputs (`Nat`). -/
def formatDuration (s : Nat) : String :=
  if durHours s > 0 then
    toString (durHours s) ++ "h " ++ toString (durMinutes s) ++ "m "
      ++ toString (durSeconds s) ++ "s"
  else if durMinutes s > 0 then
    toString (durMinutes s) ++ "m " ++ toString (durSeconds s) ++ "s"
  else
    toString (durSeconds s) ++ "s"

/-- A JavaScript field value as `convertToCSV` distinguishes them:
`typeof value === 'string'` gets quoted, anything else is rendered by
`Array.prototype.join`'s stringification, which we carry as the
rendering text. -/
inductive JsValue where
  | vStr (s : String)
  | vOther (render : String)
deriving DecidableEq

/-- A record (JavaScript object): fields as key-value pairs in
insertion order, the order `Object.keys` reports. -/
def JsRecord := List (String × JsValue)

/-- JavaScript property lookup `row[header]`: the value of the first
field with the given key, `none` when absent (`undefined`). -/
def lookupField (row : JsRecord) (key : String) : Option JsValue :=
  match row with
  | [] => none
  | (k, v) :: rest => if k = key then some v else lookupField rest key

/-- `value.replace(/"/g, '""')` from `convertToCSV` on the character
list: each double quote doubled, every other character kept. -/
def escQ : List Char → List Char
  | [] => []
  | c :: cs => (if c = '"' then ['"', '"'] else [c]) ++ escQ cs

/-- `value.replace(/"/g, '""')` from `convertToCSV`. -/
def escQuote (s : String) : String :=
  String.mk (escQ s.data)

/-- `Array.prototype.join(sep)`: the parts separated by `sep`, empty
for the empty array. -/
def joinSep (sep : String) : List String → String
  | [] => ""
  | [a] => a
  | a :: rest => a ++ sep ++ joinSep sep rest

/-- One CSV cell: a string value becomes `"` + quote-doubled body + `"`;
a non-string value is rendered as `Array.prototype.join` renders it
(`undefined`, from a missing key, renders empty). -/
def renderCell : Option JsValue → String
  | some (.vStr s) => "\"" ++ escQuote s ++ "\""
  | some (.vOther r) => r
  | none => ""

/-- One data row of `convertToCSV`: the cells for the first record's
headers, joined by commas. -/
def rowString (headers : List String) (row : JsRecord) : String :=
  joinSep "," (headers.map (fun h => renderCell (lookupField row h)))

/-- The `csvRows` array built by `convertToCSV` for non-empty data:
the header row followed by one row per record. -/
def csvRows (rows : List JsRecord) : List String :=
  match rows with
  | [] => []
  | r0 :: _ =>
    let headers := r0.map Prod.fst
    joinSep "," headers :: rows.map (rowString headers)

/-- `convertToCSV` from `app.js`. `none` models a `null`/`undefined`
argument (the `!data` guard). -/
def convertToCSV : Option (List JsRecord) → String
  | none => ""
  | some [] => ""
  | some rows => joinSep "\n" (csvRows rows)

/-! ### Part B: JSON model and `Storage` -/

mutual
/-- A JSON value: the domain of `JSON.stringify`/`JSON.parse` used by
`Storage` in `app.js`. Numbers are carried as integers. -/
inductive Json where
  | jnull : Json
  | jbool (b : Bool) : Json
  | jnum (n : Int) : Json
  | jstr (s : String) : Json
  | jarr (xs : JsonList) : Json
  | jobj (xs : JsonObj) : Json

inductive JsonList where
  | nil : JsonList
  | cons (hd : Json) (tl : JsonList) : JsonList

inductive JsonObj where
  | nil : JsonObj
  | cons (key : String) (val : Json) (tl : JsonObj) : JsonObj
end

/-- Decimal digits of a natural number, most significant first
(`String(n)` for a non-negative integer). -/
def decChars (n : Nat) : List Char :=
  if _h : n < 10 then [Nat.digitChar n]
  else decChars (n / 10) ++ [Nat.digitChar (n % 10)]
termination_by n
decreasing_by exact Nat.div_lt_self (by omega) (by omega)

/-- JSON string escaping of one character, as `JSON.stringify` emits
it for the characters modelled here. -/
def escChar (c : Char) : List Char :=
  if c = '"' then ['\\', '"']
  else if c = '\\' then ['\\', '\\']
  else if c = '\n' then ['\\', 'n']
  else if c = '\t' then ['\\', 't']
  else if c = '\r' then ['\\', 'r']
  else [c]

/-- JSON string escaping of a character list. -/
def escString (s : List Char) : List Char :=
  (s.map escChar).flatten

mutual
/-- `JSON.stringify` on the modelled JSON values, as a character
list (no whitespace, exactly as the browser emits it). -/
def printJson : Json → List Char
  | .jnull => ['n', 'u', 'l', 'l']
  | .jbool true => ['t', 'r', 'u', 'e']
  | .jbool false => ['f', 'a', 'l', 's', 'e']
  | .jnum n => if n < 0 then '-' :: decChars n.natAbs else decChars n.toNat
  | .jstr s => '"' :: (escString s.data ++ ['"'])
  | .jarr xs => '[' :: (printList xs ++ [']'])
  | .jobj xs => '\x7b' :: (printObj xs ++ ['\x7d'])

/-- The element list of a printed JSON array, commas between elements. -/
def printList : JsonList → List Char
  | .nil => []
  | .cons v tl => printJson v ++ printListTail tl

/-- The remaining elements of a printed JSON array, each preceded by a
comma. -/
def printListTail : JsonList → List Char
  | .nil => []
  | .cons v tl => ',' :: (printJson v ++ printListTail tl)

/-- The member list of a printed JSON object, commas between members. -/
def printObj : JsonObj → List Char
  | .nil => []
  | .cons k v tl => printEntry k v ++ printObjTail tl

/-- The remaining members of a printed JSON object, each preceded by a
comma. -/
def printObjTail : JsonObj → List Char
  | .nil => []
  | .cons k v tl => ',' :: (printEntry k v ++ printObjTail tl)

/-- One printed JSON object member: quoted key, colon, value. -/
def printEntry (k : String) (v : Json) : List Char :=
  '"' :: (escString k.data ++ ['"', ':']) ++ printJson v
end

/-- `JSON.stringify` as a string. -/
def stringifyJson (v : Json) : String := String.mk (printJson v)

mutual
/-- Structural size of a JSON value, the fuel budget its parse needs. -/
def sizeJson : Json → Nat
  | .jnull => 1
  | .jbool _ => 1
  | .jnum _ => 1
  | .jstr _ => 1
  | .jarr xs => sizeList xs + 1
  | .jobj xs => sizeObj xs + 1

/-- Structural size of a JSON array's elements. -/
def sizeList : JsonList → Nat
  | .nil => 0
  | .cons v tl => sizeJson v + sizeList tl + 1

/-- Structural size of a JSON object's members. -/
def sizeObj : JsonObj → Nat
  | .nil => 0
  | .cons _ v tl => sizeJson v + sizeObj tl + 1
end

/-- Is the character a decimal digit. -/
def isDigitCh (c : Char) : Bool := 48 ≤ c.toNat && c.toNat ≤ 57

/-- Greedy decimal-digit run parser with accumulator. -/
def parseNatAcc : List Char → Nat → Nat × List Char
  | [], acc => (acc, [])
  | c :: cs, acc =>
    if isDigitCh c then parseNatAcc cs (acc * 10 + (c.toNat - 48))
    else (acc, c :: cs)

/-- Inverse of `escChar` on the escape letter following a backslash. -/
def unescChar : Char → Option Char
  | '"' => some '"'
  | '\\' => some '\\'
  | 'n' => some '\n'
  | 't' => some '\t'
  | 'r' => some '\r'
  | '/' => some '/'
  | _ => none

/-- Parse a JSON string body up to the closing quote, undoing
`escChar`. -/
def parseStringBody : List Char → Option (List Char × List Char)
  | [] => none
  | c :: cs =>
    if c = '"' then some ([], cs)
    else if c = '\\' then
      match cs with
      | [] => none
      | e :: cs2 =>
        match unescChar e with
        | none => none
        | some u => (parseStringBody cs2).map (fun p => (u :: p.1, p.2))
    else (parseStringBody cs).map (fun p => (c :: p.1, p.2))

/-- Does the character list begin with something other than a digit
(so a greedy number parse just before it stops exactly there). -/
def notDigitStart : List Char → Prop
  | [] => True
  | c :: _ => ¬ isDigitCh c = true

instance : DecidablePred notDigitStart := by
  intro cs
  cases cs with
  | nil => exact isTrue trivial
  | cons c _ => exact inferInstanceAs (Decidable (¬ isDigitCh c = true))

mutual
/-- `JSON.parse` on the modelled grammar, fuelled; parses one value and
returns the unconsumed remainder. -/
def parseVal : Nat → List Char → Option (Json × List Char)
  | 0, _ => none
  | _ + 1, [] => none
  | fuel + 1, c :: rest =>
    if c = 'n' then
      match rest with
      | 'u' :: 'l' :: 'l' :: r => some (.jnull, r)
      | _ => none
    else if c = 't' then
      match rest with
      | 'r' :: 'u' :: 'e' :: r => some (.jbool true, r)
      | _ => none
    else if c = 'f' then
      match rest with
      | 'a' :: 'l' :: 's' :: 'e' :: r => some (.jbool false, r)
      | _ => none
    else if c = '"' then
      (parseStringBody rest).map (fun p => (.jstr (String.mk p.1), p.2))
    else if c = '-' then
      match rest with
      | [] => none
      | d :: _ =>
        if isDigitCh d then
          let p := parseNatAcc rest 0
          some (.jnum (-(p.1 : Int)), p.2)
        else none
    else if c = '[' then
      match rest with
      | [] => none
      | d :: r2 =>
        if d = ']' then some (.jarr .nil, r2)
        else (parseElems fuel rest).map (fun p => (.jarr p.1, p.2))
    else if c = '\x7b' then
      match rest with
      | [] => none
      | d :: r2 =>
        if d = '\x7d' then some (.jobj .nil, r2)
        else (parseMembers fuel rest).map (fun p => (.jobj p.1, p.2))
    else if isDigitCh c then
      let p := parseNatAcc (c :: rest) 0
      some (.jnum (p.1 : Int), p.2)
    else none

/-- Parse the elements of a non-empty JSON array up to and including
the closing bracket. -/
def parseElems : Nat → List Char → Option (JsonList × List Char)
  | 0, _ => none
  | fuel + 1, cs =>
    match parseVal fuel cs with
    | none => none
    | some (v, rest) =>
      match rest with
      | ',' :: r2 => (parseElems fuel r2).map (fun p => (.cons v p.1, p.2))
      | ']' :: r2 => some (.cons v .nil, r2)
      | _ => none

/-- Parse the members of a non-empty JSON object up to and including
the closing brace. -/
def parseMembers : Nat → List Char → Option (JsonObj × List Char)
  | 0, _ => none
  | fuel + 1, cs =>
    match cs with
    | '"' :: r1 =>
      match parseStringBody r1 with
      | none => none
      | some (k, r2) =>
        match r2 with
        | ':' :: r3 =>
          match parseVal fuel r3 with
          | none => none
          | some (v, r4) =>
            match r4 with
            | ',' :: r5 =>
              (parseMembers fuel r5).map (fun p => (.cons (String.mk k) v p.1, p.2))
            | '\x7d' :: r5 => some (.cons (String.mk k) v .nil, r5)
            | _ => none
        | _ => none
    | _ => none
end

/-- `JSON.parse` of a whole string: the parse must consume all input,
anything else (as a thrown exception in the browser) is `none`. -/
def parseJsonString (s : String) : Option Json :=
  match parseVal s.data.length s.data with
  | some (v, []) => some v
  | _ => none

/-- The backing key-value store behind `localStorage`. -/
def Store := String → Option String

/-- The empty backing store. -/
def emptyStore : Store := fun _ => none

/-- `Storage.set` from `app.js`:
`localStorage.setItem(key, JSON.stringify(value))`. -/
def storageSet (st : Store) (key : String) (v : Json) : Store :=
  fun q => if q = key then some (stringifyJson v) else st q

/-- `Storage.get` from `app.js`:
`const value = localStorage.getItem(key); return value ? JSON.parse(value) : defaultValue;`
with the `catch` returning `defaultValue` on a parse error. An absent
entry (`null`) and the empty string are both falsy. -/
def storageGet (st : Store) (key : String) (dflt : Json) : Json :=
  match st key with
  | none => dflt
  | some s =>
    if s = "" then dflt
    else
      match parseJsonString s with
      | some v => v
      | none => dflt

/-! ### Part C: the violation-detection and session-scoring engine

The repository ships no dedicated engine source file; every definition
below is modelled from the specification's component contracts
(spec sections 3, 4 and 7). -/

/-- Modelled from the spec: the transition outcome of the Debounce
Tracker's `observe` (spec 4.1); the engine source is missing from the
repository. -/
inductive Transition where
  | noChange
  | activated
  | deactivated
deriving DecidableEq

/-- Modelled from the spec: severity levels HIGH/MEDIUM/LOW (spec 3);
the engine source is missing from the repository. -/
inductive Severity where
  | high
  | medium
  | low
deriving DecidableEq

/-- Modelled from the spec: the violation kinds of the fixed
kind-to-severity table (spec 4.2); the engine source is missing from
the repository. -/
inductive VKind where
  | personAnomaly
  | phone
  | book
  | faceLost
  | multipleFaces
  | headPose
deriving DecidableEq

/-- Modelled from the spec: the Signal Sample kinds (spec 3); the
engine source is missing from the repository. -/
inductive SampleKind where
  | personCount
  | phonePresent
  | bookPresent
  | faceCount
  | headPoseAngle
  | tabSwitch
deriving DecidableEq

/-- Modelled from the spec: a Signal Sample (spec 3) with session id,
timestamp, kind, numeric-or-boolean value (booleans as 0/1) and
optional frame reference; the engine source is missing from the
repository. -/
structure Sample where
  sessionId : String
  timestamp : Nat
  kind : SampleKind
  value : Int
  frameRef : Option Nat
deriving DecidableEq

/-- Modelled from the spec: which violation kinds a sample kind feeds
(FaceCount feeds both the face-lost and the multiple-faces checks,
spec 4.1/4.2); the engine source is missing from the repository. -/
def kindsFor : SampleKind → List VKind
  | .personCount => [.personAnomaly]
  | .phonePresent => [.phone]
  | .bookPresent => [.book]
  | .faceCount => [.faceLost, .multipleFaces]
  | .headPoseAngle => [.headPose]
  | .tabSwitch => []

/-- Modelled from the spec: the per-kind anomaly predicate (spec 4.1);
the engine source is missing from the repository. -/
def anomalousFor (deviation : Int) : VKind → Int → Bool
  | .personAnomaly, v => v == 0 || v > 1
  | .phone, v => v != 0
  | .book, v => v != 0
  | .faceLost, v => v == 0
  | .multipleFaces, v => v > 1
  | .headPose, v => v > deviation || v < -deviation

/-- Modelled from the spec: the fixed kind-to-severity table
(spec 4.2); the engine source is missing from the repository. -/
def severityOf : VKind → Severity
  | .personAnomaly => .high
  | .phone => .high
  | .multipleFaces => .high
  | .headPose => .medium
  | .book => .medium
  | .faceLost => .low

/-- Modelled from the spec: the additive per-severity score weights
(spec 4.4); the engine source is missing from the repository. -/
def severityWeight : Severity → Nat
  | .high => 30
  | .medium => 15
  | .low => 5

/-- Modelled from the spec: per-kind Debounce Tracker configuration
(spec 4.1); the engine source is missing from the repository. -/
structure TrackerConfig where
  threshold : Nat
  resetOnAbsence : Bool
deriving DecidableEq

/-- Modelled from the spec: the Debounce Tracker's mutable state
(spec 3); the engine source is missing from the repository. -/
structure TrackerState where
  consecutiveCount : Nat
  isActive : Bool
deriving DecidableEq

/-- Modelled from the spec: a freshly created tracker; the engine
source is missing from the repository. -/
def initTracker : TrackerState := ⟨0, false⟩

/-- Modelled from the spec: the Debounce Tracker's `observe`
(spec 4.1). On an anomalous sample the consecutive count increments
and activation fires exactly when it reaches the threshold while
inactive; on a non-anomalous sample the count resets when
`resetOnAbsence` and an active tracker deactivates. The engine source
is missing from the repository. -/
def observe (cfg : TrackerConfig) (st : TrackerState) (anomalous : Bool) :
    TrackerState × Transition :=
  match anomalous with
  | true =>
    if st.consecutiveCount + 1 = cfg.threshold ∧ st.isActive = false then
      (⟨st.consecutiveCount + 1, true⟩, .activated)
    else
      (⟨st.consecutiveCount + 1, st.isActive⟩, .noChange)
  | false =>
    if st.isActive then
      (⟨if cfg.resetOnAbsence then 0 else st.consecutiveCount, false⟩, .deactivated)
    else
      (⟨if cfg.resetOnAbsence then 0 else st.consecutiveCount, false⟩, .noChange)

/-- Modelled from the spec: feeding a tracker a run of `k` consecutive
anomalous samples; the engine source is missing from the repository. -/
def anomalousRun (cfg : TrackerConfig) (st : TrackerState) : Nat → TrackerState
  | 0 => st
  | k + 1 => (observe cfg (anomalousRun cfg st k) true).1

/-- Modelled from the spec: engine-wide configuration, the per-kind
tracker table and the head-pose deviation bound (spec 4.1, 9); the
engine source is missing from the repository. -/
structure EngineConfig where
  trackerCfg : VKind → TrackerConfig
  deviation : Int

/-- Modelled from the spec: the documented default thresholds
(spec 4.1: person 10, phone 15, book 10, face-lost 30, multiple-faces
5) with reset-on-absence everywhere; the engine source is missing from
the repository. -/
def defaultConfig : EngineConfig where
  trackerCfg := fun k =>
    match k with
    | .personAnomaly => ⟨10, true⟩
    | .phone => ⟨15, true⟩
    | .book => ⟨10, true⟩
    | .faceLost => ⟨30, true⟩
    | .multipleFaces => ⟨5, true⟩
    | .headPose => ⟨10, true⟩
  deviation := 20

/-- Modelled from the spec: a Violation record (spec 3); the engine
source is missing from the repository. -/
structure Violation where
  vid : Nat
  sessionId : String
  kind : VKind
  severity : Severity
  activatedAt : Nat
  deactivatedAt : Option Nat
  evidenceRef : Option Nat
deriving DecidableEq

/-- Modelled from the spec: the Violation Classifier (spec 4.2): only
`Activated` transitions create a Violation, its severity drawn from the
fixed table; the sample's magnitude is received but never inspected.
The engine source is missing from the repository. -/
def classify (sessionId : String) (k : VKind) (trans : Transition)
    (vid : Nat) (t : Nat) (magnitude : Int) : Option Violation :=
  match trans with
  | .activated =>
    let _ := magnitude
    some ⟨vid, sessionId, k, severityOf k, t, none, none⟩
  | .noChange => none
  | .deactivated => none

/-- Modelled from the spec: an Evidence Trigger capture request
(spec 4.3); the engine source is missing from the repository. -/
structure CaptureReq where
  violationId : Nat
  frameRef : Nat
deriving DecidableEq

/-- Modelled from the spec: the Evidence Trigger's `onActivated`
(spec 4.3): with a frame reference it schedules one capture, without
one it is a no-op. The engine source is missing from the repository. -/
def onActivated (v : Violation) (frameRef : Option Nat) : Option CaptureReq :=
  frameRef.map (fun f => ⟨v.vid, f⟩)

/-- Modelled from the spec: the Session Risk Aggregator's score update
(spec 4.4): add the severity weight, clamp to 100; the engine source is
missing from the repository. -/
def applyViolation (score : Nat) (sv : Severity) : Nat :=
  min (score + severityWeight sv) 100

/-- Modelled from the spec: session lifecycle status (spec 4.5); the
engine source is missing from the repository. -/
inductive SessStatus where
  | active
  | ended
deriving DecidableEq

/-- Modelled from the spec: Session State (spec 3): per-kind trackers
(lazily created, so optional), the ordered violation log, the running
risk score and the lifecycle status; the engine source is missing from
the repository. -/
structure SessionState where
  sessionId : String
  trackers : VKind → Option TrackerState
  violationLog : List Violation
  riskScore : Nat
  status : SessStatus
  nextVid : Nat

/-- Modelled from the spec: the empty Session State created by
`startSession`; the engine source is missing from the repository. -/
def initSession (sid : String) : SessionState where
  sessionId := sid
  trackers := fun _ => none
  violationLog := []
  riskScore := 0
  status := .active
  nextVid := 0

/-- Modelled from the spec: closing the most recent open Violation of
a kind (spec 4.2) — scan the log from its end for the first open entry
of that kind and set its `deactivatedAt`; the engine source is missing
from the repository. -/
def closeFirstOpen : List Violation → VKind → Nat → List Violation
  | [], _, _ => []
  | v :: rest, k, t =>
    if v.kind = k ∧ v.deactivatedAt = none then
      { v with deactivatedAt := some t } :: rest
    else
      v :: closeFirstOpen rest k t

/-- Modelled from the spec: `closeFirstOpen` applied from the end of
the log, so the most recent open Violation of the kind is the one
closed; the engine source is missing from the repository. -/
def closeMostRecent (log : List Violation) (k : VKind) (t : Nat) : List Violation :=
  (closeFirstOpen log.reverse k t).reverse

/-- Modelled from the spec: the transition the sample's observation
produces for one violation kind of a session (tracker lazily created);
the engine source is missing from the repository. -/
def kindTransition (cfg : EngineConfig) (st : SessionState) (k : VKind)
    (sample : Sample) : Transition :=
  (observe (cfg.trackerCfg k) ((st.trackers k).getD initTracker)
    (anomalousFor cfg.deviation k sample.value)).2

/-- Modelled from the spec: processing one sample against one violation
kind — observe, classify, score and trigger evidence (spec sections 2
and 4); the engine source is missing from the repository. -/
def processKind (cfg : EngineConfig) (st : SessionState) (k : VKind)
    (sample : Sample) : SessionState × Option CaptureReq :=
  let tr := (st.trackers k).getD initTracker
  let res := observe (cfg.trackerCfg k) tr (anomalousFor cfg.deviation k sample.value)
  let st1 : SessionState :=
    { st with trackers := fun q => if q = k then some res.1 else st.trackers q }
  match res.2 with
  | .deactivated =>
    ({ st1 with violationLog := closeMostRecent st1.violationLog k sample.timestamp },
      none)
  | t0 =>
    match classify st.sessionId k t0 st.nextVid sample.timestamp sample.value with
    | none => (st1, none)
    | some v =>
      ({ st1 with
          violationLog := st1.violationLog ++ [v]
          nextVid := st1.nextVid + 1
          riskScore := applyViolation st1.riskScore v.severity },
        onActivated v sample.frameRef)

/-- Modelled from the spec: one fold step of sample processing —
process the next violation kind and append its capture request, if
any; the engine source is missing from the repository. -/
def processStep (cfg : EngineConfig) (sample : Sample)
    (acc : SessionState × List CaptureReq) (k : VKind) :
    SessionState × List CaptureReq :=
  let r := processKind cfg acc.1 k sample
  (r.1, acc.2 ++ r.2.toList)

/-- Modelled from the spec: processing one Signal Sample inside its
owning session: every violation kind the sample's kind feeds is
observed in order; the engine source is missing from the repository. -/
def processSample (cfg : EngineConfig) (st : SessionState) (sample : Sample) :
    SessionState × List CaptureReq :=
  (kindsFor sample.kind).foldl (processStep cfg sample) (st, [])

/-- Modelled from the spec: a session's state after a whole sample
stream; the engine source is missing from the repository. -/
def sessionRun (cfg : EngineConfig) (st : SessionState) (samples : List Sample) :
    SessionState :=
  samples.foldl (fun s x => (processSample cfg s x).1) st

/-- Modelled from the spec: the lifecycle error taxonomy (spec 7); the
engine source is missing from the repository. -/
inductive ProctorError where
  | duplicateSession
  | unknownSession
  | alreadyEnded
deriving DecidableEq

/-- Modelled from the spec: the Session Registry's state, a map from
session id to Session State; the engine source is missing from the
repository. -/
def Registry := String → Option SessionState

/-- Modelled from the spec: the registry before any session exists;
the engine source is missing from the repository. -/
def emptyReg : Registry := fun _ => none

/-- Modelled from the spec: `startSession` (spec 4.5), failing with
`DuplicateSession` when the id is already present; the engine source is
missing from the repository. -/
def startSession (reg : Registry) (sid : String) : Except ProctorError Registry :=
  match reg sid with
  | some st =>
    if st.status = .active then .error .duplicateSession
    else .error .duplicateSession
  | none => .ok (fun q => if q = sid then some (initSession sid) else reg q)

/-- Modelled from the spec: what `ingest` does to the one registry
entry it touches: an absent or ended session fails with
`UnknownSession` and is left as it was, an active one processes the
sample (spec 4.5); the engine source is missing from the repository. -/
def ingestEntry (cfg : EngineConfig) (entry : Option SessionState) (sample : Sample) :
    Option SessionState × Except ProctorError (List CaptureReq) :=
  match entry with
  | none => (none, .error .unknownSession)
  | some st =>
    if st.status = .ended then (some st, .error .unknownSession)
    else
      let r := processSample cfg st sample
      (some r.1, .ok r.2)

/-- Modelled from the spec: the result of one `ingest`: the registry
afterwards and the outcome surfaced to the caller; the engine source is
missing from the repository. -/
structure IngestOut where
  registry : Registry
  outcome : Except ProctorError (List CaptureReq)

/-- Modelled from the spec: `ingest` (spec 4.5) routes the sample to
the owning session's entry and rewrites only that entry; the engine
source is missing from the repository. -/
def ingest (cfg : EngineConfig) (reg : Registry) (sample : Sample) : IngestOut :=
  let r := ingestEntry cfg (reg sample.sessionId) sample
  ⟨fun q => if q = sample.sessionId then r.1 else reg q, r.2⟩

/-- Modelled from the spec: `endSession` (spec 4.5) marks the session
Ended and releases its trackers, failing with `UnknownSession` when
absent and `AlreadyEnded` on a double end; the engine source is missing
from the repository. -/
def endSession (reg : Registry) (sid : String) : Except ProctorError Registry :=
  match reg sid with
  | none => .error .unknownSession
  | some st =>
    if st.status = .ended then .error .alreadyEnded
    else
      .ok (fun q =>
        if q = sid then some { st with status := .ended, trackers := fun _ => none }
        else reg q)

/-- Modelled from the spec: folding a stream of samples through
`ingest`, keeping the registry each step leaves behind; the engine
source is missing from the repository. -/
def runSamples (cfg : EngineConfig) (reg : Registry) (samples : List Sample) :
    Registry :=
  samples.foldl (fun r s => (ingest cfg r s).registry) reg

/-- Modelled from the spec: the registry-level operations a run of the
engine consists of (spec 4.5); the engine source is missing from the
repository. -/
inductive Op where
  | start (sid : String)
  | ing (sample : Sample)
  | stop (sid : String)

/-- Modelled from the spec: executing one registry operation; a failed
lifecycle call surfaces its error to the caller and leaves the registry
as it was (spec 7); the engine source is missing from the repository. -/
def runOp (cfg : EngineConfig) (reg : Registry) : Op → Registry
  | .start sid =>
    match startSession reg sid with
    | .ok r => r
    | .error _ => reg
  | .ing sample => (ingest cfg reg sample).registry
  | .stop sid =>
    match endSession reg sid with
    | .ok r => r
    | .error _ => reg

/-- Modelled from the spec: the registry reached by a list of
operations from the empty registry; the engine source is missing from
the repository. -/
def runOps (cfg : EngineConfig) (reg : Registry) (ops : List Op) : Registry :=
  ops.foldl (runOp cfg) reg

/-- Modelled from the spec: is this Violation an open one (null
`deactivatedAt`) of the given kind; the engine source is missing from
the repository. -/
def isOpenFor (k : VKind) (v : Violation) : Bool :=
  decide (v.kind = k ∧ v.deactivatedAt = none)

/-- Modelled from the spec: how many open Violations (null
`deactivatedAt`) of a kind a log holds; the engine source is missing
from the repository. -/
def openCount (log : List Violation) (k : VKind) : Nat :=
  log.countP (isOpenFor k)

/-- Modelled from the spec: whether a tracker map's entry for a kind is
currently active (a not-yet-created tracker counts as inactive); the
engine source is missing from the repository. -/
def trackerOn (f : VKind → Option TrackerState) (k : VKind) : Bool :=
  match f k with
  | some tr => tr.isActive
  | none => false

/-- Modelled from the spec: whether the session's tracker for a kind is
currently active; the engine source is missing from the repository. -/
def trackerActive (st : SessionState) (k : VKind) : Bool :=
  trackerOn st.trackers k

/-- The C3 invariant on a session's status, violation log and tracker
map: with the session active, a kind has exactly one open Violation
when its tracker is active and none otherwise; in any session a kind
never has more than one open Violation. -/
def InvData (status : SessStatus) (log : List Violation)
    (f : VKind → Option TrackerState) : Prop :=
  ∀ k, (status = .active →
      openCount log k = (if trackerOn f k then 1 else 0)) ∧
    openCount log k ≤ 1

/-- Modelled from the spec: the per-session invariant backing C3 — in
an active session a kind has exactly one open Violation when its
tracker is active and none otherwise, and in any session a kind never
has more than one open Violation; the engine source is missing from
the repository. -/
def SessionInv (st : SessionState) : Prop :=
  InvData st.status st.violationLog st.trackers

/-- Modelled from the spec: the registry-wide invariant — every
registered session satisfies `SessionInv`; the engine source is
missing from the repository. -/
def RegInv (reg : Registry) : Prop :=
  ∀ sid st, reg sid = some st → SessionInv st

/-- A registry holding just the active session `"s"`, used to witness
properties about session lifecycle. -/
def regActiveW : Registry := fun q => if q = "s" then some (initSession "s") else none

/-- The registry `regActiveW` after `endSession "s"`. -/
def regEndedW : Registry := fun q =>
  if q = "s" then
    some { initSession "s" with status := .ended, trackers := fun _ => none }
  else regActiveW q

/-- A sample of session `"a"`, used to witness interleaving facts. -/
def saW : Sample := ⟨"a", 0, .phonePresent, 1, none⟩

/-- A sample of session `"b"`, used to witness interleaving facts. -/
def sbW : Sample := ⟨"b", 5, .faceCount, 0, none⟩

/-- An open HIGH phone violation, used to witness log-closing facts. -/
def vW : Violation := ⟨0, "s", .phone, .high, 0, none, none⟩

/-- Modelled from the spec: an interleaving of two sample streams at
the sample level (spec 8's no-cross-talk scenario); the engine source
is missing from the repository. -/
inductive Interleave : List Sample → List Sample → List Sample → Prop where
  | nil : Interleave [] [] []
  | left {x xs ys zs} : Interleave xs ys zs → Interleave (x :: xs) ys (x :: zs)
  | right {y xs ys zs} : Interleave xs ys zs → Interleave xs (y :: ys) (y :: zs)

/-! ### Theorems -/

theorem joinSep_cons₂ (sep a b : String) (l : List String) :
    joinSep sep (a :: b :: l) = a ++ sep ++ joinSep sep (b :: l) := rfl

theorem length_joinSep_cons₂ (sep a b : String) (l : List String) :
    (joinSep sep (a :: b :: l)).length
      = a.length + sep.length + (joinSep sep (b :: l)).length := by
  rw [joinSep_cons₂, String.length_append, String.length_append]

theorem escQ_count (cs : List Char) :
    (escQ cs).count '"' = 2 * cs.count '"' := by
  induction cs with
  | nil => rfl
  | cons c cs ih =>
    by_cases h : c = '"'
    · subst h
      simp [escQ, List.count_cons, ih]
      omega
    · simp [escQ, List.count_cons, h, ih]

theorem escQ_filter (cs : List Char) :
    (escQ cs).filter (fun c => !(c == '"'))
      = cs.filter (fun c => !(c == '"')) := by
  induction cs with
  | nil => rfl
  | cons c cs ih =>
    by_cases h : c = '"'
    · subst h
      simp [escQ, List.filter_cons, ih]
    · simp [escQ, List.filter_cons, h, ih]

/-- C8: for every non-negative integer input, `formatDuration`'s
components satisfy `hours*3600 + minutes*60 + remainingSeconds =
seconds` with `minutes < 60` and `remainingSeconds < 60`, and the
output takes the `h m s` form exactly when `seconds ≥ 3600`, the `m s`
form exactly when `60 ≤ seconds < 3600`, and the `s` form exactly when
`seconds < 60`. -/
theorem formatDuration_components (n : Nat) :
    durHours n * 3600 + durMinutes n * 60 + durSeconds n = n ∧
    durMinutes n < 60 ∧ durSeconds n < 60 ∧
    formatDuration n =
      (if 3600 ≤ n then
        toString (durHours n) ++ "h " ++ toString (durMinutes n) ++ "m "
          ++ toString (durSeconds n) ++ "s"
      else if 60 ≤ n then
        toString (durMinutes n) ++ "m " ++ toString (durSeconds n) ++ "s"
      else
        toString (durSeconds n) ++ "s") := by
  refine ⟨?_, ?_, ?_, ?_⟩
  · unfold durHours durMinutes durSeconds; omega
  · unfold durMinutes; omega
  · unfold durSeconds; omega
  · unfold formatDuration
    by_cases h1 : 3600 ≤ n
    · rw [if_pos h1, if_pos (show durHours n > 0 by unfold durHours; omega)]
    · rw [if_neg h1, if_neg (show ¬ durHours n > 0 by unfold durHours; omega)]
      by_cases h2 : 60 ≤ n
      · rw [if_pos h2,
          if_pos (show durMinutes n > 0 by unfold durMinutes; omega)]
      · rw [if_neg h2,
          if_neg (show ¬ durMinutes n > 0 by unfold durMinutes; omega)]

/-- C9: `convertToCSV` returns the empty string exactly on a
null/undefined or empty input; on non-empty data it is the
newline-join of `data.length + 1` rows, the first being the first
record's keys joined by commas; a string field is rendered wrapped in
double quotes with each embedded double quote doubled (quote count
doubles, all other characters are kept). -/
theorem convertToCSV_spec :
    (∀ x, convertToCSV x = "" ↔ x = none ∨ x = some []) ∧
    (∀ (r0 : JsRecord) (rest : List JsRecord),
      convertToCSV (some (r0 :: rest)) = joinSep "\n" (csvRows (r0 :: rest)) ∧
      (csvRows (r0 :: rest)).length = (r0 :: rest).length + 1 ∧
      (csvRows (r0 :: rest)).head? = some (joinSep "," (r0.map Prod.fst)) ∧
      csvRows (r0 :: rest)
        = joinSep "," (r0.map Prod.fst)
            :: (r0 :: rest).map (rowString (r0.map Prod.fst))) ∧
    (∀ s, renderCell (some (.vStr s)) = "\"" ++ escQuote s ++ "\"") ∧
    (∀ cs, (escQ cs).count '"' = 2 * cs.count '"') ∧
    (∀ cs, (escQ cs).filter (fun c => !(c == '"'))
      = cs.filter (fun c => !(c == '"'))) := by
  refine ⟨?_, ?_, fun s => rfl, escQ_count, escQ_filter⟩
  · intro x
    constructor
    · intro h
      match x with
      | none => exact Or.inl rfl
      | some [] => exact Or.inr rfl
      | some (r0 :: rest) =>
        exfalso
        have hform : convertToCSV (some (r0 :: rest))
            = joinSep "\n" (csvRows (r0 :: rest)) := rfl
        have hrows : csvRows (r0 :: rest)
            = joinSep "," (r0.map Prod.fst)
                :: rowString (r0.map Prod.fst) r0
                :: rest.map (rowString (r0.map Prod.fst)) := rfl
        have hlen : (convertToCSV (some (r0 :: rest))).length > 0 := by
          rw [hform, hrows, length_joinSep_cons₂]
          have : ("\n" : String).length = 1 := rfl
          omega
        rw [h] at hlen
        simp at hlen
    · rintro (rfl | rfl) <;> rfl
  · intro r0 rest
    refine ⟨rfl, ?_, rfl, rfl⟩
    simp [csvRows]

theorem anomalousRun_state (cfg : TrackerConfig) (hN : 1 ≤ cfg.threshold) :
    ∀ j, anomalousRun cfg initTracker j = ⟨j, decide (cfg.threshold ≤ j)⟩ := by
  intro j
  induction j with
  | zero =>
    have h0 : decide (cfg.threshold ≤ 0) = false := by
      simp only [decide_eq_false_iff_not]
      omega
    simp only [anomalousRun, initTracker, h0]
  | succ j ih =>
    simp only [anomalousRun, ih, observe]
    split_ifs with h
    · obtain ⟨h1, _⟩ := h
      have ht : decide (cfg.threshold ≤ j + 1) = true := by
        simp only [decide_eq_true_eq]
        omega
      rw [ht]
    · by_cases hj : cfg.threshold ≤ j
      · have h1 : decide (cfg.threshold ≤ j) = true := by
          simp only [decide_eq_true_eq]; exact hj
        have h2 : decide (cfg.threshold ≤ j + 1) = true := by
          simp only [decide_eq_true_eq]; omega
        rw [h1, h2]
      · have h1 : decide (cfg.threshold ≤ j) = false := by
          simp only [decide_eq_false_iff_not]; exact hj
        have h2 : decide (cfg.threshold ≤ j + 1) = false := by
          simp only [decide_eq_false_iff_not]
          intro hc
          exact h ⟨by omega, by rw [h1]⟩
        rw [h1, h2]

/-- C1: a Debounce Tracker with configured threshold `N ≥ 1`, fed a
run of consecutive anomalous samples from a fresh state, returns
`Activated` from `observe` exactly on the `N`-th sample of the run and
never on an earlier one; and one non-anomalous sample resets
`consecutiveCount` to `0` whenever `resetOnAbsence` is set. -/
theorem observe_activation (cfg : TrackerConfig) (hN : 1 ≤ cfg.threshold)
    (k : Nat) (hk : 1 ≤ k) :
    ((observe cfg (anomalousRun cfg initTracker (k - 1)) true).2 = .activated
      ↔ k = cfg.threshold) ∧
    (∀ st : TrackerState, cfg.resetOnAbsence = true →
      (observe cfg st false).1.consecutiveCount = 0) := by
  constructor
  · rw [anomalousRun_state cfg hN]
    simp only [observe]
    split_ifs with h
    · obtain ⟨h1, h2⟩ := h
      simp only [decide_eq_false_iff_not] at h2
      constructor
      · intro _
        omega
      · intro _
        rfl
    · constructor
      · intro hc
        exact absurd hc (by simp)
      · intro hkN
        exfalso
        apply h
        refine ⟨by omega, ?_⟩
        simp only [decide_eq_false_iff_not]
        omega
  · intro st hra
    cases hact : st.isActive <;> simp [observe, hra, hact]

/-- Witness for C1: the face-lost configuration (threshold 30,
reset-on-absence), at the 30th consecutive anomalous sample. -/
theorem observe_activation_witness :
    ((observe ⟨30, true⟩ (anomalousRun ⟨30, true⟩ initTracker (30 - 1)) true).2
        = .activated ↔ 30 = (⟨30, true⟩ : TrackerConfig).threshold) ∧
    (∀ st : TrackerState, (⟨30, true⟩ : TrackerConfig).resetOnAbsence = true →
      (observe ⟨30, true⟩ st false).1.consecutiveCount = 0) :=
  observe_activation ⟨30, true⟩ (by decide) 30 (by decide)

theorem processKind_risk (cfg : EngineConfig) (st : SessionState) (k : VKind)
    (sample : Sample) (h : st.riskScore ≤ 100) :
    st.riskScore ≤ (processKind cfg st k sample).1.riskScore ∧
    (processKind cfg st k sample).1.riskScore ≤ 100 := by
  unfold processKind
  dsimp only
  cases hres : (observe (cfg.trackerCfg k) ((st.trackers k).getD initTracker)
      (anomalousFor cfg.deviation k sample.value)).2 with
  | noChange => exact ⟨Nat.le_refl _, h⟩
  | activated =>
    exact ⟨Nat.le_min.mpr ⟨Nat.le_add_right _ _, h⟩, Nat.min_le_right _ _⟩
  | deactivated => exact ⟨Nat.le_refl _, h⟩

theorem foldKinds_risk (cfg : EngineConfig) (sample : Sample) :
    ∀ (ks : List VKind) (st : SessionState) (caps : List CaptureReq),
      st.riskScore ≤ 100 →
      st.riskScore ≤ (ks.foldl (processStep cfg sample) (st, caps)).1.riskScore ∧
      (ks.foldl (processStep cfg sample) (st, caps)).1.riskScore ≤ 100 := by
  intro ks
  induction ks with
  | nil => intro st caps h; exact ⟨Nat.le_refl _, h⟩
  | cons k ks ih =>
    intro st caps h
    have hstep := processKind_risk cfg st k sample h
    have hrest := ih (processKind cfg st k sample).1
      (caps ++ ((processKind cfg st k sample).2.toList)) hstep.2
    exact ⟨Nat.le_trans hstep.1 hrest.1, hrest.2⟩

theorem processSample_risk (cfg : EngineConfig) (st : SessionState)
    (sample : Sample) (h : st.riskScore ≤ 100) :
    st.riskScore ≤ (processSample cfg st sample).1.riskScore ∧
    (processSample cfg st sample).1.riskScore ≤ 100 :=
  foldKinds_risk cfg sample (kindsFor sample.kind) st [] h

theorem sessionRun_risk (cfg : EngineConfig) :
    ∀ (samples : List Sample) (st : SessionState), st.riskScore ≤ 100 →
      st.riskScore ≤ (sessionRun cfg st samples).riskScore ∧
      (sessionRun cfg st samples).riskScore ≤ 100 := by
  intro samples
  induction samples with
  | nil => intro st h; exact ⟨Nat.le_refl _, h⟩
  | cons x xs ih =>
    intro st h
    have hstep := processSample_risk cfg st x h
    have hrest := ih (processSample cfg st x).1 hstep.2
    exact ⟨Nat.le_trans hstep.1 hrest.1, hrest.2⟩

/-- C2: within a session the risk score is monotonically
non-decreasing over the whole lifetime (extending the processed stream
never lowers it), it stays within `[0, 100]` after every operation
(scores are naturals, so `0 ≤` holds by type), an `Activated`
transition adds exactly the per-severity weight (HIGH 30, MEDIUM 15,
LOW 5, clamped at 100) and a `Deactivated` transition subtracts
nothing. -/
theorem riskScore_monotone (cfg : EngineConfig) (sid : String)
    (pre more samples : List Sample) :
    severityWeight .high = 30 ∧ severityWeight .medium = 15 ∧
    severityWeight .low = 5 ∧
    (sessionRun cfg (initSession sid) pre).riskScore
      ≤ (sessionRun cfg (initSession sid) (pre ++ more)).riskScore ∧
    (sessionRun cfg (initSession sid) samples).riskScore ≤ 100 ∧
    (∀ st k sample, kindTransition cfg st k sample = .activated →
      (processKind cfg st k sample).1.riskScore
        = min (st.riskScore + severityWeight (severityOf k)) 100) ∧
    (∀ st k sample, kindTransition cfg st k sample = .deactivated →
      (processKind cfg st k sample).1.riskScore = st.riskScore) := by
  have hinit : (initSession sid).riskScore ≤ 100 := by
    simp [initSession]
  refine ⟨rfl, rfl, rfl, ?_, ?_, ?_, ?_⟩
  · unfold sessionRun
    rw [List.foldl_append]
    exact (sessionRun_risk cfg more _ (sessionRun_risk cfg pre _ hinit).2).1
  · exact (sessionRun_risk cfg samples _ hinit).2
  · intro st k sample htrans
    unfold kindTransition at htrans
    unfold processKind
    dsimp only
    rw [htrans]
    rfl
  · intro st k sample htrans
    unfold kindTransition at htrans
    unfold processKind
    dsimp only
    rw [htrans]

/-- C4: the Violation Classifier creates a Violation exactly for
`Activated` transitions; the severity it assigns is the fixed
kind-to-severity table (PersonCount anomaly, PhonePresent and multiple
faces HIGH; HeadPoseAngle anomaly and BookPresent MEDIUM; FaceCount
zero LOW) and never depends on the sample's magnitude. -/
theorem classify_spec :
    (∀ sid k trans vid t m,
      (classify sid k trans vid t m).isSome = true ↔ trans = .activated) ∧
    (∀ sid k trans vid t m v, classify sid k trans vid t m = some v →
      v.severity = severityOf k ∧ v.kind = k ∧ v.sessionId = sid ∧
      v.deactivatedAt = none) ∧
    (∀ sid k trans vid t m₁ m₂,
      classify sid k trans vid t m₁ = classify sid k trans vid t m₂) ∧
    severityOf .personAnomaly = .high ∧ severityOf .phone = .high ∧
    severityOf .multipleFaces = .high ∧ severityOf .headPose = .medium ∧
    severityOf .book = .medium ∧ severityOf .faceLost = .low := by
  refine ⟨?_, ?_, ?_, rfl, rfl, rfl, rfl, rfl, rfl⟩
  · intro sid k trans vid t m
    cases trans <;> simp [classify]
  · intro sid k trans vid t m v hv
    cases trans <;> unfold classify at hv <;> cases hv
    exact ⟨rfl, rfl, rfl, rfl⟩
  · intro sid k trans vid t m₁ m₂
    cases trans <;> rfl

theorem processKind_frameRef (cfg : EngineConfig) (st : SessionState) (k : VKind)
    (sample : Sample) (f : Option Nat) :
    (processKind cfg st k { sample with frameRef := f }).1
      = (processKind cfg st k sample).1 := by
  unfold processKind
  dsimp only
  cases hres : (observe (cfg.trackerCfg k) ((st.trackers k).getD initTracker)
      (anomalousFor cfg.deviation k sample.value)).2 <;> rfl

theorem processKind_capture_none (cfg : EngineConfig) (st : SessionState)
    (k : VKind) (sample : Sample) (h : sample.frameRef = none) :
    (processKind cfg st k sample).2 = none := by
  unfold processKind
  dsimp only
  cases hres : (observe (cfg.trackerCfg k) ((st.trackers k).getD initTracker)
      (anomalousFor cfg.deviation k sample.value)).2
  · rfl
  · show onActivated _ sample.frameRef = none
    rw [h]
    rfl
  · rfl

theorem foldKinds_frameRef (cfg : EngineConfig) (sample : Sample) (f : Option Nat) :
    ∀ (ks : List VKind) (st : SessionState) (caps caps' : List CaptureReq),
      (ks.foldl (processStep cfg { sample with frameRef := f }) (st, caps)).1
        = (ks.foldl (processStep cfg sample) (st, caps')).1 := by
  intro ks
  induction ks with
  | nil => intro st caps caps'; rfl
  | cons k ks ih =>
    intro st caps caps'
    show (ks.foldl (processStep cfg { sample with frameRef := f })
        ((processKind cfg st k { sample with frameRef := f }).1, _)).1 = _
    rw [processKind_frameRef]
    exact ih _ _ _

theorem foldKinds_capture_none (cfg : EngineConfig) (sample : Sample)
    (h : sample.frameRef = none) :
    ∀ (ks : List VKind) (st : SessionState) (caps : List CaptureReq),
      (ks.foldl (processStep cfg sample) (st, caps)).2 = caps := by
  intro ks
  induction ks with
  | nil => intro st caps; rfl
  | cons k ks ih =>
    intro st caps
    show (ks.foldl (processStep cfg sample)
        ((processKind cfg st k sample).1,
          caps ++ (processKind cfg st k sample).2.toList)).2 = caps
    rw [processKind_capture_none cfg st k sample h]
    rw [ih]
    simp

theorem mem_closeFirstOpen (k : VKind) (t : Nat) :
    ∀ (l : List Violation) (v : Violation), v ∈ closeFirstOpen l k t →
      v.evidenceRef = none ∨ ∃ u ∈ l, u.evidenceRef = v.evidenceRef := by
  intro l
  induction l with
  | nil => intro v hv; cases hv
  | cons u l ih =>
    intro v hv
    unfold closeFirstOpen at hv
    split at hv
    · rcases List.mem_cons.mp hv with rfl | hmem
      · exact Or.inr ⟨u, List.mem_cons_self _ _, rfl⟩
      · exact Or.inr ⟨v, List.mem_cons_of_mem _ hmem, rfl⟩
    · rcases List.mem_cons.mp hv with rfl | hmem
      · exact Or.inr ⟨v, List.mem_cons_self _ _, rfl⟩
      · rcases ih v hmem with h | ⟨w, hw, hwe⟩
        · exact Or.inl h
        · exact Or.inr ⟨w, List.mem_cons_of_mem _ hw, hwe⟩

theorem processKind_evidence (cfg : EngineConfig) (st : SessionState) (k : VKind)
    (sample : Sample) (h : ∀ v ∈ st.violationLog, v.evidenceRef = none) :
    ∀ v ∈ (processKind cfg st k sample).1.violationLog, v.evidenceRef = none := by
  unfold processKind
  dsimp only
  cases hres : (observe (cfg.trackerCfg k) ((st.trackers k).getD initTracker)
      (anomalousFor cfg.deviation k sample.value)).2
  · exact h
  · intro v hv
    rcases List.mem_append.mp hv with hmem | hmem
    · exact h v hmem
    · rcases List.mem_singleton.mp hmem with rfl
      rfl
  · intro v hv
    unfold closeMostRecent at hv
    rw [List.mem_reverse] at hv
    rcases mem_closeFirstOpen k sample.timestamp _ v hv with he | ⟨u, hu, hue⟩
    · exact he
    · rw [← hue]
      exact h u (List.mem_reverse.mp hu)

theorem foldKinds_evidence (cfg : EngineConfig) (sample : Sample) :
    ∀ (ks : List VKind) (st : SessionState) (caps : List CaptureReq),
      (∀ v ∈ st.violationLog, v.evidenceRef = none) →
      ∀ v ∈ (ks.foldl (processStep cfg sample) (st, caps)).1.violationLog,
        v.evidenceRef = none := by
  intro ks
  induction ks with
  | nil => intro st caps h; exact h
  | cons k ks ih =>
    intro st caps h
    exact ih _ _ (processKind_evidence cfg st k sample h)

theorem sessionRun_evidence (cfg : EngineConfig) :
    ∀ (samples : List Sample) (st : SessionState),
      (∀ v ∈ st.violationLog, v.evidenceRef = none) →
      ∀ v ∈ (sessionRun cfg st samples).violationLog, v.evidenceRef = none := by
  intro samples
  induction samples with
  | nil => intro st h; exact h
  | cons x xsamples ih =>
    intro st h
    exact ih _ (foldKinds_evidence cfg x (kindsFor x.kind) st [] h)

/-- C7: with an absent `frameRef` the Evidence Trigger is a no-op (no
capture request is ever issued for the sample), the violation log and
risk score never depend on the frame reference at all (the scoring
path is unaffected), and the engine never sets `evidenceRef` on any
violation it records — it stays null permanently with no retry. -/
theorem evidence_absent_noop :
    (∀ v : Violation, onActivated v none = none) ∧
    (∀ (cfg : EngineConfig) (st : SessionState) (sample : Sample) (f : Option Nat),
      (processSample cfg st { sample with frameRef := f }).1
        = (processSample cfg st sample).1) ∧
    (∀ (cfg : EngineConfig) (st : SessionState) (sample : Sample),
      sample.frameRef = none → (processSample cfg st sample).2 = []) ∧
    (∀ (cfg : EngineConfig) (sid : String) (samples : List Sample),
      ∀ v ∈ (sessionRun cfg (initSession sid) samples).violationLog,
        v.evidenceRef = none) := by
  refine ⟨fun v => rfl, ?_, ?_, ?_⟩
  · intro cfg st sample f
    unfold processSample
    have hk : kindsFor ({ sample with frameRef := f } : Sample).kind
        = kindsFor sample.kind := rfl
    rw [hk]
    exact foldKinds_frameRef cfg sample f (kindsFor sample.kind) st [] []
  · intro cfg st sample h
    exact foldKinds_capture_none cfg sample h (kindsFor sample.kind) st []
  · intro cfg sid samples
    exact sessionRun_evidence cfg samples (initSession sid) (by intro v hv; cases hv)

theorem runSamples_ended (cfg : EngineConfig) :
    ∀ (zs : List Sample) (reg : Registry) (sid : String) (st : SessionState),
      reg sid = some st → st.status = .ended →
      runSamples cfg reg zs sid = some st := by
  intro zs
  induction zs with
  | nil => intro reg sid st h _; exact h
  | cons z zs ih =>
    intro reg sid st h hst
    show runSamples cfg (ingest cfg reg z).registry zs sid = some st
    apply ih _ sid st _ hst
    unfold ingest
    dsimp only
    by_cases hz : sid = z.sessionId
    · subst hz
      rw [if_pos rfl, h]
      unfold ingestEntry
      dsimp only
      rw [if_pos hst]
    · rw [if_neg hz]
      exact h

/-- C5: once `endSession` has succeeded for a session, every
subsequent `ingest` of a sample carrying that session id — no matter
how many samples for other sessions are processed in between — fails
with `UnknownSession` and leaves the registry exactly as it was. -/
theorem endSession_ingest (cfg : EngineConfig) (reg reg' : Registry)
    (sid : String) (h : endSession reg sid = .ok reg') :
    ∀ (zs : List Sample) (sample : Sample), sample.sessionId = sid →
      (ingest cfg (runSamples cfg reg' zs) sample).outcome
          = .error .unknownSession ∧
      (ingest cfg (runSamples cfg reg' zs) sample).registry
          = runSamples cfg reg' zs := by
  have hreg' : ∃ stEnd : SessionState, reg' sid = some stEnd ∧ stEnd.status = .ended := by
    unfold endSession at h
    cases hmm : reg sid with
    | none => rw [hmm] at h; exact Except.noConfusion h
    | some st0 =>
      rw [hmm] at h
      dsimp only at h
      by_cases hstat : st0.status = .ended
      · rw [if_pos hstat] at h
        exact Except.noConfusion h
      · rw [if_neg hstat] at h
        injection h with h2
        refine ⟨{ st0 with status := .ended, trackers := fun _ => none }, ?_, rfl⟩
        rw [← h2]
        dsimp only
        rw [if_pos rfl]
  obtain ⟨stEnd, hlook, hend⟩ := hreg'
  intro zs sample hsid
  have hzlook : runSamples cfg reg' zs sid = some stEnd :=
    runSamples_ended cfg zs reg' sid stEnd hlook hend
  constructor
  · show (ingestEntry cfg (runSamples cfg reg' zs sample.sessionId) sample).2
        = .error .unknownSession
    rw [hsid, hzlook]
    unfold ingestEntry
    dsimp only
    rw [if_pos hend]
  · funext q
    show (if q = sample.sessionId
        then (ingestEntry cfg (runSamples cfg reg' zs sample.sessionId) sample).1
        else runSamples cfg reg' zs q) = runSamples cfg reg' zs q
    by_cases hq : q = sample.sessionId
    · subst hq
      rw [if_pos rfl, hsid, hzlook]
      unfold ingestEntry
      dsimp only
      rw [if_pos hend]
    · rw [if_neg hq]

/-- Witness for C5: end session `"s"` and ingest one of its samples. -/
theorem endSession_ingest_witness :
    (ingest defaultConfig (runSamples defaultConfig regEndedW [])
        (⟨"s", 0, .phonePresent, 1, none⟩ : Sample)).outcome
      = .error .unknownSession :=
  (endSession_ingest defaultConfig regActiveW regEndedW "s" rfl []
    ⟨"s", 0, .phonePresent, 1, none⟩ rfl).1

theorem interleave_swap :
    ∀ {xs ys zs : List Sample}, Interleave xs ys zs → Interleave ys xs zs := by
  intro xs ys zs h
  induction h with
  | nil => exact .nil
  | left _ ih => exact .right ih
  | right _ ih => exact .left ih

theorem run_interleave (cfg : EngineConfig) (a : String) :
    ∀ {xs ys zs : List Sample}, Interleave xs ys zs →
      (∀ s ∈ ys, s.sessionId ≠ a) →
      ∀ reg1 reg2 : Registry, reg1 a = reg2 a →
      runSamples cfg reg1 zs a = runSamples cfg reg2 xs a := by
  intro xs ys zs h
  induction h with
  | nil => intro _ reg1 reg2 hr; exact hr
  | @left x xs ys zs _ ih =>
    intro hys reg1 reg2 hr
    show runSamples cfg (ingest cfg reg1 x).registry zs a
        = runSamples cfg (ingest cfg reg2 x).registry xs a
    apply ih hys
    show (if a = x.sessionId
        then (ingestEntry cfg (reg1 x.sessionId) x).1 else reg1 a)
      = (if a = x.sessionId
        then (ingestEntry cfg (reg2 x.sessionId) x).1 else reg2 a)
    by_cases hxa : a = x.sessionId
    · rw [if_pos hxa, if_pos hxa, ← hxa, hr]
    · rw [if_neg hxa, if_neg hxa]
      exact hr
  | @right y xs ys zs _ ih =>
    intro hys reg1 reg2 hr
    show runSamples cfg (ingest cfg reg1 y).registry zs a
        = runSamples cfg reg2 xs a
    apply ih (fun s hs => hys s (List.mem_cons_of_mem _ hs))
    show (if a = y.sessionId
        then (ingestEntry cfg (reg1 y.sessionId) y).1 else reg1 a)
      = reg2 a
    rw [if_neg (fun hc => hys y (List.mem_cons_self _ _) (Eq.symm hc)), hr]

/-- C6: for two distinct sessions and any interleaving of their sample
streams, processing the interleaved stream leaves each session with
exactly the registry entry (trackers, violation log, risk score) it
would have after processing its own stream alone — samples of one
session never influence the other's state. -/
theorem interleaving_independence (cfg : EngineConfig) (a b : String)
    (hab : a ≠ b) (xs ys zs : List Sample)
    (hx : ∀ s ∈ xs, s.sessionId = a) (hy : ∀ s ∈ ys, s.sessionId = b)
    (hz : Interleave xs ys zs) (reg : Registry) :
    runSamples cfg reg zs a = runSamples cfg reg xs a ∧
    runSamples cfg reg zs b = runSamples cfg reg ys b := by
  constructor
  · refine run_interleave cfg a hz ?_ reg reg rfl
    intro s hs
    rw [hy s hs]
    exact Ne.symm hab
  · refine run_interleave cfg b (interleave_swap hz) ?_ reg reg rfl
    intro s hs
    rw [hx s hs]
    exact hab

/-- Witness for C6: one sample per session, interleaved a-then-b. -/
theorem interleaving_independence_witness :
    runSamples defaultConfig emptyReg [saW, sbW] "a"
        = runSamples defaultConfig emptyReg [saW] "a" ∧
    runSamples defaultConfig emptyReg [saW, sbW] "b"
        = runSamples defaultConfig emptyReg [sbW] "b" :=
  interleaving_independence defaultConfig "a" "b" (by decide) [saW] [sbW]
    [saW, sbW]
    (by intro s hs; rcases List.mem_singleton.mp hs with rfl; rfl)
    (by intro s hs; rcases List.mem_singleton.mp hs with rfl; rfl)
    (.left (.right .nil)) emptyReg

theorem countP_reverse (p : Violation → Bool) (l : List Violation) :
    l.reverse.countP p = l.countP p := by
  rw [List.countP_eq_length_filter, List.countP_eq_length_filter,
    List.filter_reverse, List.length_reverse]

theorem isOpenFor_closed (k' : VKind) (v : Violation) (t : Nat) :
    isOpenFor k' { v with deactivatedAt := some t } = false := by
  simp [isOpenFor]

theorem closeFirstOpen_length (k : VKind) (t : Nat) :
    ∀ l : List Violation, (closeFirstOpen l k t).length = l.length := by
  intro l
  induction l with
  | nil => rfl
  | cons u l ih =>
    unfold closeFirstOpen
    split
    · rfl
    · simp [ih]

theorem closeMostRecent_length (log : List Violation) (k : VKind) (t : Nat) :
    (closeMostRecent log k t).length = log.length := by
  unfold closeMostRecent
  rw [List.length_reverse, closeFirstOpen_length, List.length_reverse]

theorem closeFirstOpen_countP_self (k : VKind) (t : Nat) :
    ∀ l : List Violation, (∃ v ∈ l, isOpenFor k v = true) →
      (closeFirstOpen l k t).countP (isOpenFor k) + 1
        = l.countP (isOpenFor k) := by
  intro l
  induction l with
  | nil => rintro ⟨v, hv, _⟩; cases hv
  | cons u l ih =>
    intro hex
    unfold closeFirstOpen
    by_cases hu : u.kind = k ∧ u.deactivatedAt = none
    · rw [if_pos hu]
      rw [List.countP_cons, List.countP_cons]
      rw [isOpenFor_closed]
      have : isOpenFor k u = true := decide_eq_true hu
      rw [this]
      simp
    · rw [if_neg hu]
      rw [List.countP_cons, List.countP_cons]
      have huo : isOpenFor k u = false := decide_eq_false hu
      rw [huo]
      have hexl : ∃ v ∈ l, isOpenFor k v = true := by
        rcases hex with ⟨v, hv, hvo⟩
        rcases List.mem_cons.mp hv with rfl | hmem
        · exact absurd (of_decide_eq_true hvo) hu
        · exact ⟨v, hmem, hvo⟩
      have := ih hexl
      simp only [Bool.false_eq_true, if_false]
      omega

theorem closeFirstOpen_countP_other (k k' : VKind) (t : Nat) (hne : k' ≠ k) :
    ∀ l : List Violation,
      (closeFirstOpen l k t).countP (isOpenFor k')
        = l.countP (isOpenFor k') := by
  intro l
  induction l with
  | nil => rfl
  | cons u l ih =>
    unfold closeFirstOpen
    by_cases hu : u.kind = k ∧ u.deactivatedAt = none
    · rw [if_pos hu]
      rw [List.countP_cons, List.countP_cons]
      rw [isOpenFor_closed]
      have huo : isOpenFor k' u = false := by
        apply decide_eq_false
        rintro ⟨hk, _⟩
        exact hne (hu.1 ▸ hk).symm
      rw [huo]
    · rw [if_neg hu]
      rw [List.countP_cons, List.countP_cons, ih]

theorem openCount_closeMostRecent_self (log : List Violation) (k : VKind)
    (t : Nat) (h : ∃ v ∈ log, isOpenFor k v = true) :
    openCount (closeMostRecent log k t) k + 1 = openCount log k := by
  unfold openCount closeMostRecent
  rw [countP_reverse]
  rw [closeFirstOpen_countP_self k t log.reverse ?_, countP_reverse]
  rcases h with ⟨v, hv, hvo⟩
  exact ⟨v, List.mem_reverse.mpr hv, hvo⟩

theorem openCount_closeMostRecent_other (log : List Violation) (k k' : VKind)
    (t : Nat) (hne : k' ≠ k) :
    openCount (closeMostRecent log k t) k' = openCount log k' := by
  unfold openCount closeMostRecent
  rw [countP_reverse, closeFirstOpen_countP_other k k' t hne, countP_reverse]

theorem closeFirstOpen_split (k : VKind) (t : Nat) :
    ∀ l : List Violation, (∃ v ∈ l, isOpenFor k v = true) →
      ∃ l1 v l2, l = l1 ++ v :: l2 ∧ isOpenFor k v = true ∧
        (∀ u ∈ l1, isOpenFor k u = false) ∧
        closeFirstOpen l k t = l1 ++ { v with deactivatedAt := some t } :: l2 := by
  intro l
  induction l with
  | nil => rintro ⟨v, hv, _⟩; cases hv
  | cons u l ih =>
    intro hex
    by_cases hu : u.kind = k ∧ u.deactivatedAt = none
    · refine ⟨[], u, l, rfl, decide_eq_true hu, ?_, ?_⟩
      · intro w hw; cases hw
      · unfold closeFirstOpen
        rw [if_pos hu]
        rfl
    · have hexl : ∃ v ∈ l, isOpenFor k v = true := by
        rcases hex with ⟨v, hv, hvo⟩
        rcases List.mem_cons.mp hv with rfl | hmem
        · exact absurd (of_decide_eq_true hvo) hu
        · exact ⟨v, hmem, hvo⟩
      rcases ih hexl with ⟨l1, v, l2, hsplit, hvo, hl1, hclose⟩
      refine ⟨u :: l1, v, l2, by rw [hsplit]; rfl, hvo, ?_, ?_⟩
      · intro w hw
        rcases List.mem_cons.mp hw with rfl | hmem
        · exact decide_eq_false hu
        · exact hl1 w hmem
      · unfold closeFirstOpen
        rw [if_neg hu, hclose]
        rfl

theorem closeMostRecent_split (log : List Violation) (k : VKind) (t : Nat)
    (h : ∃ v ∈ log, isOpenFor k v = true) :
    ∃ a v b, log = a ++ v :: b ∧ isOpenFor k v = true ∧
      (∀ u ∈ b, isOpenFor k u = false) ∧
      closeMostRecent log k t = a ++ { v with deactivatedAt := some t } :: b := by
  have hrev : ∃ v ∈ log.reverse, isOpenFor k v = true := by
    rcases h with ⟨v, hv, hvo⟩
    exact ⟨v, List.mem_reverse.mpr hv, hvo⟩
  rcases closeFirstOpen_split k t log.reverse hrev with
    ⟨l1, v, l2, hsplit, hvo, hl1, hclose⟩
  refine ⟨l2.reverse, v, l1.reverse, ?_, hvo, ?_, ?_⟩
  · have h2 := congrArg List.reverse hsplit
    rw [List.reverse_reverse] at h2
    rw [h2]
    simp
  · intro u hu
    exact hl1 u (List.mem_reverse.mp hu)
  · unfold closeMostRecent
    rw [hclose]
    simp

theorem trackerOn_getD (f : VKind → Option TrackerState) (k : VKind) :
    trackerOn f k = ((f k).getD initTracker).isActive := by
  unfold trackerOn
  cases f k <;> rfl

theorem trackerOn_update (f : VKind → Option TrackerState) (k k' : VKind)
    (tr' : TrackerState) :
    trackerOn (fun q => if q = k then some tr' else f q) k'
      = if k' = k then tr'.isActive else trackerOn f k' := by
  unfold trackerOn
  by_cases h : k' = k <;> simp [h]

theorem observe_shape (cfg : TrackerConfig) (tr : TrackerState) (b : Bool) :
    ((observe cfg tr b).2 = .activated →
      tr.isActive = false ∧ (observe cfg tr b).1.isActive = true) ∧
    ((observe cfg tr b).2 = .deactivated →
      tr.isActive = true ∧ (observe cfg tr b).1.isActive = false) ∧
    ((observe cfg tr b).2 = .noChange →
      (observe cfg tr b).1.isActive = tr.isActive) := by
  cases b
  · cases hia : tr.isActive
    · have hobs : observe cfg tr false
          = (⟨if cfg.resetOnAbsence then 0 else tr.consecutiveCount, false⟩,
              .noChange) := by
        unfold observe
        dsimp only
        rw [if_neg (by rw [hia]; simp)]
      rw [hobs]
      exact ⟨fun hh => (nomatch hh), fun hh => (nomatch hh), fun _ => rfl⟩
    · have hobs : observe cfg tr false
          = (⟨if cfg.resetOnAbsence then 0 else tr.consecutiveCount, false⟩,
              .deactivated) := by
        unfold observe
        dsimp only
        rw [if_pos hia]
      rw [hobs]
      exact ⟨fun hh => (nomatch hh), fun _ => ⟨rfl, rfl⟩, fun hh => (nomatch hh)⟩
  · by_cases hcond : tr.consecutiveCount + 1 = cfg.threshold ∧ tr.isActive = false
    · have hobs : observe cfg tr true
          = (⟨tr.consecutiveCount + 1, true⟩, .activated) := by
        unfold observe
        dsimp only
        rw [if_pos hcond]
      rw [hobs]
      exact ⟨fun _ => ⟨hcond.2, rfl⟩, fun hh => (nomatch hh), fun hh => nomatch hh⟩
    · have hobs : observe cfg tr true
          = (⟨tr.consecutiveCount + 1, tr.isActive⟩, .noChange) := by
        unfold observe
        dsimp only
        rw [if_neg hcond]
      rw [hobs]
      exact ⟨fun hh => (nomatch hh), fun hh => (nomatch hh), fun _ => rfl⟩

theorem processKind_status (cfg : EngineConfig) (st : SessionState) (k : VKind)
    (sample : Sample) :
    (processKind cfg st k sample).1.status = st.status := by
  unfold processKind
  dsimp only
  cases hres : (observe (cfg.trackerCfg k) ((st.trackers k).getD initTracker)
      (anomalousFor cfg.deviation k sample.value)).2 <;> rfl

theorem invData_noChange (status : SessStatus) (log : List Violation)
    (f : VKind → Option TrackerState) (k : VKind) (tr' : TrackerState)
    (hiso : tr'.isActive = trackerOn f k) (hinv : InvData status log f) :
    InvData status log (fun q => if q = k then some tr' else f q) := by
  intro k'
  refine ⟨?_, (hinv k').2⟩
  intro hact
  rw [trackerOn_update]
  by_cases hk : k' = k
  · rw [if_pos hk, hiso, hk]
    exact (hinv k).1 hact
  · rw [if_neg hk]
    exact (hinv k').1 hact

theorem invData_activated (status : SessStatus) (log : List Violation)
    (f : VKind → Option TrackerState) (k : VKind) (tr' : TrackerState)
    (v : Violation) (hact : status = .active) (hinv : InvData status log f)
    (hcur : trackerOn f k = false) (hnew : tr'.isActive = true)
    (hvk : v.kind = k) (hvd : v.deactivatedAt = none) :
    InvData status (log ++ [v]) (fun q => if q = k then some tr' else f q) := by
  have hvo : isOpenFor k v = true := decide_eq_true ⟨hvk, hvd⟩
  have h0 : openCount log k = 0 := by
    have := (hinv k).1 hact
    rw [hcur] at this
    simpa using this
  intro k'
  by_cases hk : k' = k
  · subst hk
    have hcount : openCount (log ++ [v]) k' = 1 := by
      unfold openCount at h0 ⊢
      rw [List.countP_append, h0, List.countP_cons, hvo]
      rfl
    refine ⟨?_, by rw [hcount]⟩
    intro _
    rw [hcount, trackerOn_update, if_pos rfl, hnew]
    rfl
  · have hvno : isOpenFor k' v = false := by
      apply decide_eq_false
      rintro ⟨hk2, _⟩
      rw [hvk] at hk2
      exact hk hk2.symm
    have hcount : openCount (log ++ [v]) k' = openCount log k' := by
      unfold openCount
      rw [List.countP_append, List.countP_cons, hvno]
      rfl
    refine ⟨?_, by rw [hcount]; exact (hinv k').2⟩
    intro hs
    rw [hcount, trackerOn_update, if_neg hk]
    exact (hinv k').1 hs

theorem invData_deactivated (status : SessStatus) (log : List Violation)
    (f : VKind → Option TrackerState) (k : VKind) (tr' : TrackerState)
    (t : Nat) (hact : status = .active) (hinv : InvData status log f)
    (hcur : trackerOn f k = true) (hnew : tr'.isActive = false) :
    InvData status (closeMostRecent log k t)
      (fun q => if q = k then some tr' else f q) := by
  have h1 : openCount log k = 1 := by
    have := (hinv k).1 hact
    rw [hcur] at this
    simpa using this
  have hex : ∃ v ∈ log, isOpenFor k v = true := by
    apply List.countP_pos_iff.mp
    unfold openCount at h1
    omega
  intro k'
  by_cases hk : k' = k
  · subst hk
    have h0 : openCount (closeMostRecent log k' t) k' = 0 := by
      have := openCount_closeMostRecent_self log k' t hex
      omega
    refine ⟨?_, by rw [h0]; exact Nat.zero_le _⟩
    intro _
    rw [h0, trackerOn_update, if_pos rfl, hnew]
    rfl
  · have hsame := openCount_closeMostRecent_other log k k' t hk
    refine ⟨?_, by rw [hsame]; exact (hinv k').2⟩
    intro hs
    rw [hsame, trackerOn_update, if_neg hk]
    exact (hinv k').1 hs

theorem processKind_inv (cfg : EngineConfig) (st : SessionState) (k : VKind)
    (sample : Sample) (hact : st.status = .active) (hinv : SessionInv st) :
    SessionInv (processKind cfg st k sample).1 := by
  have hshape := observe_shape (cfg.trackerCfg k)
    ((st.trackers k).getD initTracker) (anomalousFor cfg.deviation k sample.value)
  have hcurOn : trackerOn st.trackers k
      = ((st.trackers k).getD initTracker).isActive := trackerOn_getD _ _
  unfold processKind
  dsimp only
  cases hres : (observe (cfg.trackerCfg k) ((st.trackers k).getD initTracker)
      (anomalousFor cfg.deviation k sample.value)).2 with
  | noChange =>
    show InvData st.status st.violationLog
      (fun q => if q = k then
        some (observe (cfg.trackerCfg k) ((st.trackers k).getD initTracker)
          (anomalousFor cfg.deviation k sample.value)).1 else st.trackers q)
    apply invData_noChange
    · rw [hshape.2.2 hres, hcurOn]
    · exact hinv
  | activated =>
    show InvData st.status
      (st.violationLog
        ++ [⟨st.nextVid, st.sessionId, k, severityOf k, sample.timestamp, none, none⟩])
      (fun q => if q = k then
        some (observe (cfg.trackerCfg k) ((st.trackers k).getD initTracker)
          (anomalousFor cfg.deviation k sample.value)).1 else st.trackers q)
    obtain ⟨hfalse, htrue⟩ := hshape.1 hres
    exact invData_activated st.status st.violationLog st.trackers k _ _ hact hinv
      (by rw [hcurOn]; exact hfalse) htrue rfl rfl
  | deactivated =>
    show InvData st.status (closeMostRecent st.violationLog k sample.timestamp)
      (fun q => if q = k then
        some (observe (cfg.trackerCfg k) ((st.trackers k).getD initTracker)
          (anomalousFor cfg.deviation k sample.value)).1 else st.trackers q)
    obtain ⟨htrue, hfalse⟩ := hshape.2.1 hres
    exact invData_deactivated st.status st.violationLog st.trackers k _
      sample.timestamp hact hinv (by rw [hcurOn]; exact htrue) hfalse

theorem foldKinds_inv (cfg : EngineConfig) (sample : Sample) :
    ∀ (ks : List VKind) (st : SessionState) (caps : List CaptureReq),
      st.status = .active → SessionInv st →
      SessionInv (ks.foldl (processStep cfg sample) (st, caps)).1 := by
  intro ks
  induction ks with
  | nil => intro st caps _ hinv; exact hinv
  | cons k ks ih =>
    intro st caps hact hinv
    exact ih _ _ (by rw [processKind_status]; exact hact)
      (processKind_inv cfg st k sample hact hinv)

theorem initSession_inv (sid : String) : SessionInv (initSession sid) := by
  intro k
  exact ⟨fun _ => rfl, Nat.zero_le _⟩

theorem runOp_inv (cfg : EngineConfig) (op : Op) :
    ∀ reg : Registry, RegInv reg → RegInv (runOp cfg reg op) := by
  intro reg hreg
  cases op with
  | start sid =>
    unfold runOp
    dsimp only
    cases hs : startSession reg sid with
    | error e => exact hreg
    | ok r =>
      unfold startSession at hs
      cases hmm : reg sid with
      | some st0 =>
        rw [hmm] at hs
        dsimp only at hs
        split_ifs at hs
      | none =>
        rw [hmm] at hs
        injection hs with hs2
        rw [← hs2]
        intro sid' st' h'
        dsimp only at h'
        by_cases hq : sid' = sid
        · rw [if_pos hq] at h'
          cases h'
          exact initSession_inv sid
        · rw [if_neg hq] at h'
          exact hreg sid' st' h'
  | ing sample =>
    unfold runOp ingest
    dsimp only
    intro sid' st' h'
    dsimp only at h'
    by_cases hq : sid' = sample.sessionId
    · rw [if_pos hq] at h'
      unfold ingestEntry at h'
      cases hmm : reg sample.sessionId with
      | none => rw [hmm] at h'; cases h'
      | some st0 =>
        rw [hmm] at h'
        dsimp only at h'
        by_cases hstat : st0.status = .ended
        · rw [if_pos hstat] at h'
          cases h'
          exact hreg sample.sessionId st' hmm
        · rw [if_neg hstat] at h'
          cases h'
          have hact : st0.status = .active := by
            cases hsv : st0.status
            · rfl
            · exact absurd hsv hstat
          exact foldKinds_inv cfg sample (kindsFor sample.kind) st0 [] hact
            (hreg sample.sessionId st0 hmm)
    · rw [if_neg hq] at h'
      exact hreg sid' st' h'
  | stop sid =>
    unfold runOp
    dsimp only
    cases hs : endSession reg sid with
    | error e => exact hreg
    | ok r =>
      unfold endSession at hs
      cases hmm : reg sid with
      | none =>
        rw [hmm] at hs
        exact Except.noConfusion hs
      | some st0 =>
        rw [hmm] at hs
        dsimp only at hs
        by_cases hstat : st0.status = .ended
        · rw [if_pos hstat] at hs
          exact Except.noConfusion hs
        · rw [if_neg hstat] at hs
          injection hs with hs2
          rw [← hs2]
          intro sid' st' h'
          dsimp only at h'
          by_cases hq : sid' = sid
          · rw [if_pos hq] at h'
            cases h'
            intro k
            refine ⟨fun hsv => (nomatch hsv), ?_⟩
            exact (hreg sid st0 hmm k).2
          · rw [if_neg hq] at h'
            exact hreg sid' st' h'

theorem runOps_inv (cfg : EngineConfig) (ops : List Op) :
    RegInv (runOps cfg emptyReg ops) := by
  suffices h : ∀ (l : List Op) (reg : Registry), RegInv reg →
      RegInv (runOps cfg reg l) by
    exact h ops emptyReg (fun sid st h' => nomatch h')
  intro l
  induction l with
  | nil => intro reg h; exact h
  | cons op l ih =>
    intro reg h
    exact ih _ (runOp_inv cfg op reg h)

/-- C3: at every registry state reachable by any sequence of
start/ingest/end operations, each (session, kind) pair has at most one
open Violation; a `Deactivated` transition replaces the log by
`closeMostRecent` without changing its length (no record is created);
and `closeMostRecent` closes exactly the most recent open Violation of
the kind by setting its `deactivatedAt`, leaving every other entry
untouched. -/
theorem open_violation_unique (cfg : EngineConfig) :
    (∀ (ops : List Op) (sid : String) (st : SessionState) (k : VKind),
      runOps cfg emptyReg ops sid = some st →
      openCount st.violationLog k ≤ 1) ∧
    (∀ (st : SessionState) (k : VKind) (sample : Sample),
      kindTransition cfg st k sample = .deactivated →
      (processKind cfg st k sample).1.violationLog
          = closeMostRecent st.violationLog k sample.timestamp ∧
      (processKind cfg st k sample).1.violationLog.length
          = st.violationLog.length) ∧
    (∀ (log : List Violation) (k : VKind) (t : Nat),
      (∃ v ∈ log, isOpenFor k v = true) →
      ∃ a v b, log = a ++ v :: b ∧ isOpenFor k v = true ∧
        (∀ u ∈ b, isOpenFor k u = false) ∧
        closeMostRecent log k t = a ++ { v with deactivatedAt := some t } :: b) := by
  refine ⟨?_, ?_, closeMostRecent_split⟩
  · intro ops sid st k h
    exact (runOps_inv cfg ops sid st h k).2
  · intro st k sample htrans
    unfold kindTransition at htrans
    unfold processKind
    dsimp only
    rw [htrans]
    exact ⟨rfl, closeMostRecent_length _ _ _⟩

theorem digitChar_digit {d : Nat} (h : d < 10) :
    isDigitCh (Nat.digitChar d) = true := by
  have hd : d = 0 ∨ d = 1 ∨ d = 2 ∨ d = 3 ∨ d = 4 ∨ d = 5 ∨ d = 6 ∨ d = 7
      ∨ d = 8 ∨ d = 9 := by omega
  rcases hd with rfl | rfl | rfl | rfl | rfl | rfl | rfl | rfl | rfl | rfl <;>
    decide

theorem digitChar_val {d : Nat} (h : d < 10) :
    (Nat.digitChar d).toNat - 48 = d := by
  have hd : d = 0 ∨ d = 1 ∨ d = 2 ∨ d = 3 ∨ d = 4 ∨ d = 5 ∨ d = 6 ∨ d = 7
      ∨ d = 8 ∨ d = 9 := by omega
  rcases hd with rfl | rfl | rfl | rfl | rfl | rfl | rfl | rfl | rfl | rfl <;>
    decide

theorem decChars_digits (n : Nat) : ∀ c ∈ decChars n, isDigitCh c = true := by
  induction n using Nat.strong_induction_on with
  | _ n ih =>
    rw [decChars]
    by_cases h : n < 10
    · rw [dif_pos h]
      intro c hc
      rcases List.mem_singleton.mp hc with rfl
      exact digitChar_digit h
    · rw [dif_neg h]
      intro c hc
      rcases List.mem_append.mp hc with hc | hc
      · exact ih (n / 10) (Nat.div_lt_self (by omega) (by omega)) c hc
      · rcases List.mem_singleton.mp hc with rfl
        exact digitChar_digit (Nat.mod_lt n (by omega))

theorem decChars_ne_nil (n : Nat) : decChars n ≠ [] := by
  rw [decChars]
  by_cases h : n < 10
  · rw [dif_pos h]; simp
  · rw [dif_neg h]; simp

theorem parseNatAcc_append (xs : List Char) :
    ∀ (rest : List Char) (acc : Nat), (∀ c ∈ xs, isDigitCh c = true) →
      notDigitStart rest →
      parseNatAcc (xs ++ rest) acc
        = (xs.foldl (fun a c => a * 10 + (c.toNat - 48)) acc, rest) := by
  induction xs with
  | nil =>
    intro rest acc _ hrest
    cases rest with
    | nil => rfl
    | cons c cs =>
      show parseNatAcc (c :: cs) acc = _
      unfold parseNatAcc
      rw [if_neg (fun hc => hrest hc)]
      rfl
  | cons x xs ih =>
    intro rest acc hxs hrest
    show parseNatAcc (x :: (xs ++ rest)) acc = _
    unfold parseNatAcc
    rw [if_pos (hxs x (List.mem_cons_self _ _))]
    rw [ih rest _ (fun c hc => hxs c (List.mem_cons_of_mem _ hc)) hrest]
    rfl

theorem foldl_decChars (n : Nat) :
    ∀ acc : Nat, (decChars n).foldl (fun a c => a * 10 + (c.toNat - 48)) acc
      = acc * 10 ^ (decChars n).length + n := by
  induction n using Nat.strong_induction_on with
  | _ n ih =>
    intro acc
    rw [decChars]
    by_cases h : n < 10
    · rw [dif_pos h]
      simp [digitChar_val h]
    · rw [dif_neg h]
      rw [List.foldl_append, ih (n / 10) (Nat.div_lt_self (by omega) (by omega))]
      simp only [List.foldl_cons, List.foldl_nil, List.length_append,
        List.length_cons, List.length_nil]
      rw [digitChar_val (Nat.mod_lt n (by omega))]
      rw [Nat.pow_succ]
      ring_nf
      omega

theorem parseNat_decChars (n : Nat) (rest : List Char) (hrest : notDigitStart rest) :
    parseNatAcc (decChars n ++ rest) 0 = (n, rest) := by
  rw [parseNatAcc_append (decChars n) rest 0 (decChars_digits n) hrest]
  rw [foldl_decChars]
  simp

theorem escString_nil : escString [] = [] := rfl

theorem escString_cons (c : Char) (s : List Char) :
    escString (c :: s) = escChar c ++ escString s := by
  simp [escString]

theorem escChar_spec (c : Char) :
    (escChar c = [c] ∧ c ≠ '"' ∧ c ≠ '\\')
    ∨ (∃ e, escChar c = ['\\', e] ∧ unescChar e = some c) := by
  unfold escChar
  by_cases h1 : c = '"'
  · subst h1; right; exact ⟨'"', by rw [if_pos rfl], rfl⟩
  · rw [if_neg h1]
    by_cases h2 : c = '\\'
    · subst h2; right; exact ⟨'\\', by rw [if_pos rfl], rfl⟩
    · rw [if_neg h2]
      by_cases h3 : c = '\n'
      · subst h3; right; exact ⟨'n', by rw [if_pos rfl], rfl⟩
      · rw [if_neg h3]
        by_cases h4 : c = '\t'
        · subst h4; right; exact ⟨'t', by rw [if_pos rfl], rfl⟩
        · rw [if_neg h4]
          by_cases h5 : c = '\r'
          · subst h5; right; exact ⟨'r', by rw [if_pos rfl], rfl⟩
          · rw [if_neg h5]
            left
            exact ⟨rfl, h1, h2⟩

theorem parseStringBody_esc (s : List Char) :
    ∀ rest : List Char,
      parseStringBody (escString s ++ '"' :: rest) = some (s, rest) := by
  induction s with
  | nil =>
    intro rest
    rw [escString_nil]
    show parseStringBody ('"' :: rest) = some ([], rest)
    unfold parseStringBody
    rw [if_pos rfl]
  | cons c s ih =>
    intro rest
    rw [escString_cons]
    rcases escChar_spec c with ⟨heq, hq, hb⟩ | ⟨e, heq, hun⟩
    · rw [heq]
      show parseStringBody (c :: (escString s ++ '"' :: rest)) = _
      unfold parseStringBody
      rw [if_neg hq, if_neg hb, ih rest]
      rfl
    · rw [heq]
      show parseStringBody ('\\' :: e :: (escString s ++ '"' :: rest)) = _
      unfold parseStringBody
      rw [if_neg (by decide : ¬('\\' : Char) = '"'), if_pos rfl]
      dsimp only
      rw [hun, ih rest]
      rfl

theorem digit_ne_of {c : Char} (h : isDigitCh c = true) {d : Char}
    (hd : isDigitCh d = false) : c ≠ d := by
  rintro rfl
  rw [h] at hd
  cases hd

theorem notDigitStart_of (c : Char) (l : List Char) (h : isDigitCh c = false) :
    notDigitStart (c :: l) := by
  show ¬ isDigitCh c = true
  rw [h]
  simp

theorem sizeJson_pos (v : Json) : 1 ≤ sizeJson v := by
  cases v <;> unfold sizeJson <;> omega

theorem printJson_head (v : Json) :
    ∃ c cs, printJson v = c :: cs ∧ c ≠ ']' ∧ c ≠ '\x7d' := by
  cases v with
  | jnull => exact ⟨'n', ['u', 'l', 'l'], by simp [printJson], by decide, by decide⟩
  | jbool b =>
    cases b
    · exact ⟨'f', ['a', 'l', 's', 'e'], by simp [printJson], by decide, by decide⟩
    · exact ⟨'t', ['r', 'u', 'e'], by simp [printJson], by decide, by decide⟩
  | jnum n =>
    have hp : printJson (.jnum n)
        = if n < 0 then '-' :: decChars n.natAbs else decChars n.toNat := by
      simp [printJson]
    rw [hp]
    by_cases h : n < 0
    · rw [if_pos h]
      exact ⟨'-', _, rfl, by decide, by decide⟩
    · rw [if_neg h]
      cases hd : decChars n.toNat with
      | nil => exact absurd hd (decChars_ne_nil _)
      | cons c cs =>
        have hc : isDigitCh c = true :=
          decChars_digits _ c (by rw [hd]; exact List.mem_cons_self _ _)
        exact ⟨c, cs, rfl, digit_ne_of hc (by decide), digit_ne_of hc (by decide)⟩
  | jstr s =>
    exact ⟨'"', escString s.data ++ ['"'], by simp [printJson], by decide, by decide⟩
  | jarr xs =>
    exact ⟨'[', printList xs ++ [']'], by simp [printJson], by decide, by decide⟩
  | jobj xs =>
    exact ⟨'\x7b', printObj xs ++ ['\x7d'], by simp [printJson], by decide, by decide⟩

theorem parseVal_digit (f : Nat) (c : Char) (rr : List Char)
    (h : isDigitCh c = true) :
    parseVal (f + 1) (c :: rr)
      = some (.jnum ((parseNatAcc (c :: rr) 0).1 : Int),
          (parseNatAcc (c :: rr) 0).2) := by
  simp only [parseVal]
  rw [if_neg (digit_ne_of h (by decide)),
      if_neg (digit_ne_of h (by decide)),
      if_neg (digit_ne_of h (by decide)),
      if_neg (digit_ne_of h (by decide)),
      if_neg (digit_ne_of h (by decide)),
      if_neg (digit_ne_of h (by decide)),
      if_neg (digit_ne_of h (by decide)),
      if_pos h]

theorem printEntry_len (k : String) (v : Json) :
    (printJson v).length ≤ (printEntry k v).length := by
  have hp : printEntry k v
      = '"' :: (escString k.data ++ ['"', ':']) ++ printJson v := by
    simp [printEntry]
  rw [hp]
  simp only [List.cons_append, List.length_cons, List.length_append]
  omega

mutual
theorem sizeJson_le (v : Json) : sizeJson v ≤ (printJson v).length := by
  cases v with
  | jnull => simp [sizeJson, printJson]
  | jbool b => cases b <;> simp [sizeJson, printJson]
  | jnum n =>
    have hp : printJson (.jnum n)
        = if n < 0 then '-' :: decChars n.natAbs else decChars n.toNat := by
      simp [printJson]
    rw [hp]
    have h1 : sizeJson (.jnum n) = 1 := by simp [sizeJson]
    rw [h1]
    by_cases h : n < 0
    · rw [if_pos h]
      simp
    · rw [if_neg h]
      cases hd : decChars n.toNat with
      | nil => exact absurd hd (decChars_ne_nil n.toNat)
      | cons c cs => simp
  | jstr s => simp [sizeJson, printJson]
  | jarr xs =>
    have h := sizeList_le xs
    simp only [sizeJson, printJson, List.length_cons, List.length_append,
      List.length_nil]
    omega
  | jobj xs =>
    have h := sizeObj_le xs
    simp only [sizeJson, printJson, List.length_cons, List.length_append,
      List.length_nil]
    omega

theorem sizeList_le (xs : JsonList) : sizeList xs ≤ (printList xs).length + 1 := by
  cases xs with
  | nil => simp [sizeList]
  | cons v tl =>
    have h1 := sizeJson_le v
    have h2 := sizeListTail_le tl
    simp only [sizeList, printList, List.length_append]
    omega

theorem sizeListTail_le (xs : JsonList) :
    sizeList xs ≤ (printListTail xs).length := by
  cases xs with
  | nil => simp [sizeList, printListTail]
  | cons v tl =>
    have h1 := sizeJson_le v
    have h2 := sizeListTail_le tl
    simp only [sizeList, printListTail, List.length_cons, List.length_append]
    omega

theorem sizeObj_le (xs : JsonObj) : sizeObj xs ≤ (printObj xs).length + 1 := by
  cases xs with
  | nil => simp [sizeObj]
  | cons k v tl =>
    have h1 := sizeJson_le v
    have h2 := sizeObjTail_le tl
    have h3 := printEntry_len k v
    simp only [sizeObj, printObj, List.length_append]
    omega

theorem sizeObjTail_le (xs : JsonObj) :
    sizeObj xs ≤ (printObjTail xs).length := by
  cases xs with
  | nil => simp [sizeObj, printObjTail]
  | cons k v tl =>
    have h1 := sizeJson_le v
    have h2 := sizeObjTail_le tl
    have h3 := printEntry_len k v
    simp only [sizeObj, printObjTail, List.length_cons, List.length_append]
    omega
end

theorem parse_print : ∀ fuel : Nat,
    (∀ (v : Json) (rest : List Char), sizeJson v ≤ fuel → notDigitStart rest →
      parseVal fuel (printJson v ++ rest) = some (v, rest)) ∧
    (∀ (v : Json) (tl : JsonList) (rest : List Char),
      sizeJson v + sizeList tl + 1 ≤ fuel →
      parseElems fuel (printJson v ++ (printListTail tl ++ ']' :: rest))
        = some (.cons v tl, rest)) ∧
    (∀ (k : String) (v : Json) (tl : JsonObj) (rest : List Char),
      sizeJson v + sizeObj tl + 1 ≤ fuel →
      parseMembers fuel
          ('"' :: (escString k.data ++ '"' :: ':'
            :: (printJson v ++ (printObjTail tl ++ '\x7d' :: rest))))
        = some (.cons k v tl, rest)) := by
  intro fuel
  induction fuel using Nat.strong_induction_on with
  | _ fuel ih =>
    refine ⟨?_, ?_, ?_⟩
    · intro v rest hsz hrest
      cases fuel with
      | zero =>
        have := sizeJson_pos v
        omega
      | succ f =>
        cases v with
        | jnull =>
          rw [show printJson .jnull = ['n', 'u', 'l', 'l'] from by simp [printJson]]
          rfl
        | jbool b =>
          cases b
          · rw [show printJson (.jbool false) = ['f', 'a', 'l', 's', 'e'] from by
              simp [printJson]]
            rfl
          · rw [show printJson (.jbool true) = ['t', 'r', 'u', 'e'] from by
              simp [printJson]]
            rfl
        | jnum n =>
          rw [show printJson (.jnum n)
              = if n < 0 then '-' :: decChars n.natAbs else decChars n.toNat from by
            simp [printJson]]
          by_cases hn : n < 0
          · rw [if_pos hn]
            cases hd : decChars n.natAbs with
            | nil => exact absurd hd (decChars_ne_nil _)
            | cons d ds =>
              have hdig : isDigitCh d = true :=
                decChars_digits _ d (by rw [hd]; exact List.mem_cons_self _ _)
              have hred : parseVal (f + 1) (('-' :: d :: ds) ++ rest)
                  = if isDigitCh d then
                      some (.jnum (-((parseNatAcc (d :: (ds ++ rest)) 0).1 : Int)),
                        (parseNatAcc (d :: (ds ++ rest)) 0).2)
                    else none := rfl
              rw [hred, if_pos hdig]
              rw [show d :: (ds ++ rest) = decChars n.natAbs ++ rest from by
                rw [hd]; rfl]
              rw [parseNat_decChars _ _ hrest]
              have hco : (-(n.natAbs : Int)) = n := by omega
              rw [hco]
          · rw [if_neg hn]
            cases hd : decChars n.toNat with
            | nil => exact absurd hd (decChars_ne_nil _)
            | cons d ds =>
              have hdig : isDigitCh d = true :=
                decChars_digits _ d (by rw [hd]; exact List.mem_cons_self _ _)
              rw [show (d :: ds) ++ rest = d :: (ds ++ rest) from rfl]
              rw [parseVal_digit f d _ hdig]
              rw [show d :: (ds ++ rest) = decChars n.toNat ++ rest from by
                rw [hd]; rfl]
              rw [parseNat_decChars _ _ hrest]
              have hco : ((n.toNat : Nat) : Int) = n := by omega
              rw [hco]
        | jstr s =>
          rw [show printJson (.jstr s) ++ rest
              = '"' :: (escString s.data ++ '"' :: rest) from by
            simp [printJson]]
          have hred : ∀ r1, parseVal (f + 1) ('"' :: r1)
              = (parseStringBody r1).map
                  (fun p => (.jstr (String.mk p.1), p.2)) := fun _ => rfl
          rw [hred, parseStringBody_esc]
          rfl
        | jarr xs =>
          cases xs with
          | nil =>
            rw [show printJson (.jarr .nil) ++ rest = '[' :: ']' :: rest from by
              simp [printJson, printList]]
            rfl
          | cons v1 tl =>
            rw [show printJson (.jarr (.cons v1 tl)) ++ rest
                = '[' :: (printJson v1 ++ (printListTail tl ++ ']' :: rest)) from by
              simp [printJson, printList]]
            obtain ⟨c, cs, hpj, hc1, _⟩ := printJson_head v1
            rw [hpj]
            rw [show (c :: cs) ++ (printListTail tl ++ ']' :: rest)
                = c :: (cs ++ (printListTail tl ++ ']' :: rest)) from rfl]
            have hred : ∀ d r2, parseVal (f + 1) ('[' :: d :: r2)
                = (if d = ']' then some (.jarr .nil, r2)
                  else (parseElems f (d :: r2)).map
                    (fun p => (.jarr p.1, p.2))) := fun _ _ => rfl
            rw [hred, if_neg hc1]
            rw [show c :: (cs ++ (printListTail tl ++ ']' :: rest))
                = printJson v1 ++ (printListTail tl ++ ']' :: rest) from by
              rw [hpj]; rfl]
            simp only [sizeJson, sizeList] at hsz
            rw [(ih f (by omega)).2.1 v1 tl rest (by omega)]
            rfl
        | jobj xs =>
          cases xs with
          | nil =>
            rw [show printJson (.jobj .nil) ++ rest = '\x7b' :: '\x7d' :: rest from by
              simp [printJson, printObj]]
            rfl
          | cons k1 v1 tl =>
            rw [show printJson (.jobj (.cons k1 v1 tl)) ++ rest
                = '\x7b' :: ('"' :: (escString k1.data ++ '"' :: ':'
                    :: (printJson v1 ++ (printObjTail tl ++ '\x7d' :: rest)))) from by
              simp [printJson, printObj, printEntry]]
            have hred : ∀ d r2, parseVal (f + 1) ('\x7b' :: d :: r2)
                = (if d = '\x7d' then some (.jobj .nil, r2)
                  else (parseMembers f (d :: r2)).map
                    (fun p => (.jobj p.1, p.2))) := fun _ _ => rfl
            rw [hred, if_neg (by decide : ¬('"' : Char) = '\x7d')]
            simp only [sizeJson, sizeObj] at hsz
            rw [(ih f (by omega)).2.2 k1 v1 tl rest (by omega)]
            rfl
    · intro v tl rest hsz
      cases fuel with
      | zero =>
        have := sizeJson_pos v
        omega
      | succ f =>
        have hredE : ∀ cs, parseElems (f + 1) cs
            = (match parseVal f cs with
              | none => none
              | some (v', r') =>
                match r' with
                | ',' :: r2 => (parseElems f r2).map (fun p => (.cons v' p.1, p.2))
                | ']' :: r2 => some (.cons v' .nil, r2)
                | _ => none) := fun _ => rfl
        rw [hredE]
        have hszv : sizeJson v ≤ f := by omega
        cases tl with
        | nil =>
          have hnd : notDigitStart (printListTail JsonList.nil ++ ']' :: rest) := by
            simp only [printListTail, List.nil_append]
            exact notDigitStart_of _ _ (by decide)
          rw [(ih f (by omega)).1 v _ hszv hnd]
          rw [show printListTail JsonList.nil ++ ']' :: rest = ']' :: rest from by
            simp [printListTail]]
          rfl
        | cons v2 tl2 =>
          have hnd : notDigitStart
              (printListTail (JsonList.cons v2 tl2) ++ ']' :: rest) := by
            simp only [printListTail, List.cons_append]
            exact notDigitStart_of _ _ (by decide)
          rw [(ih f (by omega)).1 v _ hszv hnd]
          rw [show printListTail (JsonList.cons v2 tl2) ++ ']' :: rest
              = ',' :: (printJson v2 ++ (printListTail tl2 ++ ']' :: rest)) from by
            simp [printListTail]]
          show (parseElems f
              (printJson v2 ++ (printListTail tl2 ++ ']' :: rest))).map
                (fun p => (JsonList.cons v p.1, p.2))
            = some (JsonList.cons v (JsonList.cons v2 tl2), rest)
          have hp1 := sizeJson_pos v
          simp only [sizeList] at hsz
          rw [(ih f (by omega)).2.1 v2 tl2 rest (by omega)]
          rfl
    · intro k v tl rest hsz
      cases fuel with
      | zero =>
        have := sizeJson_pos v
        omega
      | succ f =>
        have hredM : ∀ r1, parseMembers (f + 1) ('"' :: r1)
            = (match parseStringBody r1 with
              | none => none
              | some (kk, r2) =>
                match r2 with
                | ':' :: r3 =>
                  match parseVal f r3 with
                  | none => none
                  | some (vv, r4) =>
                    match r4 with
                    | ',' :: r5 =>
                      (parseMembers f r5).map
                        (fun p => (.cons (String.mk kk) vv p.1, p.2))
                    | '\x7d' :: r5 => some (.cons (String.mk kk) vv .nil, r5)
                    | _ => none
                | _ => none) := fun _ => rfl
        rw [hredM]
        rw [parseStringBody_esc k.data
          (':' :: (printJson v ++ (printObjTail tl ++ '\x7d' :: rest)))]
        show (match parseVal f (printJson v ++ (printObjTail tl ++ '\x7d' :: rest)) with
          | none => none
          | some (vv, r4) =>
            match r4 with
            | ',' :: r5 =>
              (parseMembers f r5).map
                (fun p => (JsonObj.cons (String.mk k.data) vv p.1, p.2))
            | '\x7d' :: r5 => some (JsonObj.cons (String.mk k.data) vv JsonObj.nil, r5)
            | _ => none)
          = some (JsonObj.cons k v tl, rest)
        have hszv : sizeJson v ≤ f := by omega
        cases tl with
        | nil =>
          have hnd : notDigitStart (printObjTail JsonObj.nil ++ '\x7d' :: rest) := by
            simp only [printObjTail, List.nil_append]
            exact notDigitStart_of _ _ (by decide)
          rw [(ih f (by omega)).1 v _ hszv hnd]
          rw [show printObjTail JsonObj.nil ++ '\x7d' :: rest = '\x7d' :: rest from by
            simp [printObjTail]]
          rfl
        | cons k2 v2 tl2 =>
          have hnd : notDigitStart
              (printObjTail (JsonObj.cons k2 v2 tl2) ++ '\x7d' :: rest) := by
            simp only [printObjTail, List.cons_append]
            exact notDigitStart_of _ _ (by decide)
          rw [(ih f (by omega)).1 v _ hszv hnd]
          rw [show printObjTail (JsonObj.cons k2 v2 tl2) ++ '\x7d' :: rest
              = ',' :: ('"' :: (escString k2.data ++ '"' :: ':'
                  :: (printJson v2 ++ (printObjTail tl2 ++ '\x7d' :: rest)))) from by
            simp [printObjTail, printEntry]]
          show (parseMembers f
              ('"' :: (escString k2.data ++ '"' :: ':'
                :: (printJson v2 ++ (printObjTail tl2 ++ '\x7d' :: rest))))).map
                  (fun p => (JsonObj.cons (String.mk k.data) v p.1, p.2))
            = some (JsonObj.cons k v (JsonObj.cons k2 v2 tl2), rest)
          have hp1 := sizeJson_pos v
          simp only [sizeObj] at hsz
          rw [(ih f (by omega)).2.2 k2 v2 tl2 rest (by omega)]
          rfl

theorem parseJson_stringify (v : Json) :
    parseJsonString (stringifyJson v) = some v := by
  unfold parseJsonString stringifyJson
  have hdata : (String.mk (printJson v)).data = printJson v := rfl
  rw [hdata]
  have h1 : parseVal (printJson v).length (printJson v ++ []) = some (v, []) :=
    (parse_print _).1 v [] (sizeJson_le v) trivial
  rw [List.append_nil] at h1
  rw [h1]

theorem stringifyJson_ne_empty (v : Json) : stringifyJson v ≠ "" := by
  obtain ⟨c, cs, hpj, _, _⟩ := printJson_head v
  unfold stringifyJson
  rw [hpj]
  intro h
  have h2 := congrArg String.data h
  exact List.noConfusion h2

/-- C10: `Storage.get` performed after `Storage.set` on the same key
returns a value structurally equal to the one stored — the value
survives the `JSON.stringify`/`JSON.parse` round trip, proved here for
the concrete JSON model — and when the backing entry is absent
`Storage.get` returns the supplied default. -/
theorem storage_roundtrip :
    (∀ (st : Store) (key : String) (v dflt : Json),
      storageGet (storageSet st key v) key dflt = v) ∧
    (∀ (st : Store) (key : String) (dflt : Json), st key = none →
      storageGet st key dflt = dflt) ∧
    (∀ v : Json, parseJsonString (stringifyJson v) = some v) := by
  refine ⟨?_, ?_, parseJson_stringify⟩
  · intro st key v dflt
    unfold storageGet storageSet
    rw [if_pos rfl]
    show (if stringifyJson v = "" then dflt
      else
        match parseJsonString (stringifyJson v) with
        | some v2 => v2
        | none => dflt) = v
    rw [if_neg (stringifyJson_ne_empty v)]
    rw [parseJson_stringify]
  · intro st key dflt h
    unfold storageGet
    rw [h]

/-- Witness for C10: storing 42 under `"k"` and reading it back. -/
theorem storage_roundtrip_witness :
    storageGet (storageSet emptyStore "k" (.jnum 42)) "k" .jnull = .jnum 42 :=
  storage_roundtrip.1 emptyStore "k" (.jnum 42) .jnull

/-- Witness for C2: the score after one more sample never drops, and
stays within the clamp. -/
theorem riskScore_monotone_witness :
    (sessionRun defaultConfig (initSession "s") []).riskScore
      ≤ (sessionRun defaultConfig (initSession "s") ([] ++ [saW])).riskScore ∧
    (sessionRun defaultConfig (initSession "s") [saW]).riskScore ≤ 100 :=
  ⟨(riskScore_monotone defaultConfig "s" [] [saW] [saW]).2.2.2.1,
    (riskScore_monotone defaultConfig "s" [] [saW] [saW]).2.2.2.2.1⟩

/-- Witness for C3: closing the most recent open phone violation in a
one-entry log. -/
theorem open_violation_unique_witness :
    ∃ a v b, ([vW] : List Violation) = a ++ v :: b ∧ isOpenFor .phone v = true ∧
      (∀ u ∈ b, isOpenFor .phone u = false) ∧
      closeMostRecent [vW] .phone 7 = a ++ { v with deactivatedAt := some 7 } :: b :=
  (open_violation_unique defaultConfig).2.2 [vW] .phone 7
    ⟨vW, List.mem_cons_self _ _, by decide⟩

/-- Witness for C4: a phone `Activated` transition yields a violation. -/
theorem classify_spec_witness :
    (classify "s" .phone .activated 0 0 0).isSome = true
      ↔ Transition.activated = Transition.activated :=
  classify_spec.1 "s" .phone .activated 0 0 0

/-- Witness for C7: no capture request without a frame reference. -/
theorem evidence_absent_noop_witness : onActivated vW none = none :=
  evidence_absent_noop.1 vW

/-- Witness for C8: 3661 seconds decompose exactly. -/
theorem formatDuration_components_witness :
    durHours 3661 * 3600 + durMinutes 3661 * 60 + durSeconds 3661 = 3661 :=
  (formatDuration_components 3661).1

/-- Witness for C9: a string cell is rendered wrapped in quotes. -/
theorem convertToCSV_spec_witness :
    renderCell (some (.vStr "x")) = "\"" ++ escQuote "x" ++ "\"" :=
  convertToCSV_spec.2.2.1 "x"

end ProctGuard
